import Mathlib

/-!
# Multi-Client-File-Server: the per-connection protocol of `server.c`

A shallow embedding of the child-process branch of `main` and of the functions
it calls (`send_message_to_client`, `receive_client_message`,
`do_strings_match`, `open_file`, `get_file`, `put_file`).

Conventions.
* A byte is a `Nat`; a C array is a `List Nat` whose length is the array size.
  Reading outside an array is undefined behaviour and yields `Res.undefined`.
* Memory that the C code reads without having written it is supplied by a
  parameter: `stale` for the array `buffer` of `main`, `scratch` for the array
  `input_first_word` of `do_strings_match`, `mode_tail` for the bytes that lie
  behind the parameter `open_mode` of `open_file`, whose address is handed to
  `fopen` as the mode string.
* The network peer is the list of byte chunks that the successive `recv` calls
  return; a `recv` with no chunk left never returns (`Res.blocked`).
* The file system is a store keyed by path name.
* The functions of the C library (`strlen`, `strcmp`, `strchr`, `strcspn`,
  `tolower`, `fopen`, `fgets`, `fwrite`) are given by their specification.
-/

namespace FileServer

/-- The constant `BUFFER_LEN` of `server.c`. -/
def BUFFER_LEN : Nat := 100

/-- Outcome of running a piece of the program: it finished with a result, it
reached undefined behaviour (an access outside an array), or it is left waiting
in a `recv` that never returns. -/
inductive Res (α : Type) where
  | ok (a : α)
  | undefined
  | blocked
  deriving DecidableEq

/-- The value carried by a finished run. -/
def Res.val? {α : Type} : Res α → Option α
  | .ok a => some a
  | _ => none

/-- The bytes of an ASCII text. -/
def bytes (s : String) : List Nat := s.toList.map Char.toNat

/-- A C string literal as it lies in memory: its bytes and the terminating NUL. -/
def lit (s : String) : List Nat := bytes s ++ [0]

/-- The function `tolower` of the C locale. -/
def tolower (c : Nat) : Nat := if 65 ≤ c ∧ c ≤ 90 then c + 32 else c

/-- The function `strlen`: index of the first NUL, `none` when the array holds none. -/
def strlen : List Nat → Option Nat
  | [] => none
  | b :: rest =>
    if b = 0 then some 0
    else match strlen rest with
      | none => none
      | some n => some (n + 1)

/-- The function `strcmp(a, b)`: the difference of the first pair of bytes that
differ, `0` when the two strings end together. -/
def strcmp : List Nat → List Nat → Res Int
  | x :: a, y :: b =>
    if x ≠ y then .ok ((x : Int) - (y : Int))
    else if x = 0 then .ok 0
    else strcmp a b
  | _, _ => .undefined

/-- The function `strchr(s, c)`: index of the first `c` in the string, `none`
(NULL) when the string ends first. -/
def strchr : List Nat → Nat → Res (Option Nat)
  | [], _ => .undefined
  | b :: rest, c =>
    if b = c then .ok (some 0)
    else if b = 0 then .ok none
    else match strchr rest c with
      | .ok (some i) => .ok (some (i + 1))
      | .ok none => .ok none
      | .undefined => .undefined
      | .blocked => .blocked

/-- The call `strcspn(s, "\n")`: index of the first newline or of the
terminating NUL. -/
def strcspn_nl : List Nat → Option Nat
  | [] => none
  | b :: rest =>
    if b = 10 ∨ b = 0 then some 0
    else match strcspn_nl rest with
      | none => none
      | some n => some (n + 1)

/-- The assignment `a[i] = v`. -/
def store (a : List Nat) (i v : Nat) : Option (List Nat) :=
  if i < a.length then some (a.set i v) else none

/-- The file system: `read name` is the contents a successful
`fopen(name, "r")` gives access to (`none`: the open fails), `writable name`
says whether `fopen(name, "w")` succeeds. `accepts mode name` is the answer of
the library to a mode string that carries further bytes behind its letter, a
call the C standard leaves undefined: `false` when the call fails, `true` when
it acts as the call with the letter alone. -/
structure FileStore where
  read : List Nat → Option (List Nat)
  writable : List Nat → Bool
  accepts : List Nat → List Nat → Bool

/-- The store after `data` was appended to the file `name`. -/
def FileStore.append (fs : FileStore) (name data : List Nat) : FileStore :=
  { fs with read := fun n => if n = name then some ((fs.read name).getD [] ++ data) else fs.read n }

/-- The store after the file `name` was created or truncated. -/
def FileStore.truncate (fs : FileStore) (name : List Nat) : FileStore :=
  { fs with read := fun n => if n = name then some [] else fs.read n }

/-- An open `FILE*`: the unread rest of a file opened with `r`, or the name of a
file opened with `w`. -/
inductive FILE where
  | reader (rest : List Nat)
  | writer (name : List Nat)

/-- What one connection has done so far: the bytes of each `send`, in order;
the file store; the `fopen` calls made (file name and mode); the number of
receives made by the loop of `put_file`. -/
structure World where
  sent : List (List Nat)
  files : FileStore
  opens : List (List Nat × Nat)
  recvs : Nat

/-- The function `send_message_to_client`: sends `strlen(msg)` bytes of `msg`.
The call `send` is taken to transmit all of them; a failing `send` ends the
process through `error` and has no part in the model. -/
def send_message_to_client (w : World) (msg : List Nat) : Res World :=
  match strlen msg with
  | none => .undefined
  | some n => .ok { w with sent := w.sent ++ [msg.take n] }

/-- Conversion of a byte count to the return type `char` of
`receive_client_message`. -/
def to_char (n : Nat) : Int :=
  if n % 256 < 128 then ((n % 256 : Nat) : Int) else ((n % 256 : Nat) : Int) - 256

/-- The function `receive_client_message`: `recv` stores at most `BUFFER_LEN`
bytes at the start of `buffer`, the bytes behind them stay as they were. The
result is the byte count as a `char` and the buffer. A failing `recv` ends the
process through `error` and has no part in the model. -/
def receive_client_message (buffer chunk : List Nat) : Int × List Nat :=
  let data := chunk.take BUFFER_LEN
  (to_char data.length, data ++ buffer.drop data.length)

/-- State of the `for` loop of `do_strings_match`. -/
structure WordScan where
  word : List Nat
  reads : List Nat
  writes : List Nat
  finished : Bool

/-- The loop `for (i = 0; input[i] != ' ' && input[i] != '\n'; i++)
input_first_word[i] = tolower(input[i]);` from index `i` on. `reads` and
`writes` record the indices used on `input` and on `input_first_word`;
`finished` is false when an index fell outside its array. The index grows by
one per iteration and leaves `input` at `input.length`, so the fuel
`input.length + 1` of `first_word_scan` is never used up. -/
def first_word_loop (input : List Nat) : Nat → Nat → WordScan → WordScan
  | 0, _, s => { s with finished := false }
  | fuel + 1, i, s =>
    match input[i]? with
    | none => { s with reads := s.reads ++ [i], finished := false }
    | some c =>
      if c ≠ 32 ∧ c ≠ 10 then
        match store s.word i (tolower c) with
        | none => { s with reads := s.reads ++ [i], writes := s.writes ++ [i], finished := false }
        | some word =>
          first_word_loop input fuel (i + 1)
            { s with word := word, reads := s.reads ++ [i], writes := s.writes ++ [i] }
      else { s with reads := s.reads ++ [i], finished := true }

/-- The first-word scan of `do_strings_match` on `input`, with
`input_first_word` holding `scratch` on entry. -/
def first_word_scan (scratch input : List Nat) : WordScan :=
  first_word_loop input (input.length + 1) 0
    { word := scratch, reads := [], writes := [], finished := false }

/-- The function `do_strings_match`. The array `input_first_word` holds
`scratch` on entry; the loop copies the first word into it and `strcmp` reads
it up to the first NUL byte it finds there. -/
def do_strings_match (scratch input target : List Nat) : Res Int :=
  let s := first_word_scan scratch input
  if s.finished then strcmp s.word target else .undefined

/-- The mode string `fopen` reads at `&open_mode`: the character `open_mode`
and the bytes `mode_tail` that lie behind it in memory, as far as the first NUL
byte among them. -/
def mode_string (open_mode : Nat) (mode_tail : List Nat) : List Nat :=
  open_mode :: mode_tail.takeWhile (fun b => b ≠ 0)

/-- The library call `fopen(filename, &open_mode)`. The character `open_mode`
is `r` (114) or `w` (119); no NUL byte is stored behind it, so the mode string
goes on with the bytes `mode_tail`. When the mode string is the letter alone,
or the library accepts it, the file is opened for reading (`r`) or created or
truncated for writing (`w`); otherwise the call returns NULL. Every call is
recorded in `opens` with the file name and the letter. -/
def fopen (w : World) (filename : List Nat) (open_mode : Nat) (mode_tail : List Nat) :
    Option FILE × World :=
  let w1 := { w with opens := w.opens ++ [(filename, open_mode)] }
  if mode_string open_mode mode_tail = [open_mode]
      ∨ w.files.accepts (mode_string open_mode mode_tail) filename = true then
    if open_mode = 114 then
      match w.files.read filename with
      | some contents => (some (.reader contents), w1)
      | none => (none, w1)
    else if open_mode = 119 then
      if w.files.writable filename then
        (some (.writer filename), { w1 with files := w.files.truncate filename })
      else (none, w1)
    else (none, w1)
  else (none, w1)

/-- The C string that starts at index `start` of `mem`. -/
def c_string (mem : List Nat) (start : Nat) : Option (List Nat) :=
  match strlen (mem.drop start) with
  | none => none
  | some n => some ((mem.drop start).take n)

/-- The first four statements of `open_file`: `strchr(buffer, ' ')`,
`filename++`, `filename[strcspn(filename, "\n")] = '\0'`. Gives the string
`filename` that is then handed to `fopen` together with the buffer as the
assignment leaves it, or `none` when `strchr` returns NULL. -/
def parse_filename (buffer : List Nat) : Res (Option (List Nat × List Nat)) :=
  match strchr buffer 32 with
  | .ok none => .ok none
  | .ok (some p) =>
    match strcspn_nl (buffer.drop (p + 1)) with
    | none => .undefined
    | some j =>
      match store buffer (p + 1 + j) 0 with
      | none => .undefined
      | some buffer1 =>
        match c_string buffer1 (p + 1) with
        | none => .undefined
        | some filename => .ok (some (filename, buffer1))
  | .undefined => .undefined
  | .blocked => .blocked

/-- The function `open_file`. -/
def open_file (w : World) (buffer : List Nat) (open_mode : Nat) (mode_tail : List Nat)
    (other_error_msg not_found_msg : List Nat) : Res (Option FILE × List Nat × World) :=
  match parse_filename buffer with
  | .ok none =>
    match send_message_to_client w other_error_msg with
    | .ok w1 => .ok (none, buffer, w1)
    | .undefined => .undefined
    | .blocked => .blocked
  | .ok (some (filename, buffer1)) =>
    match fopen w filename open_mode mode_tail with
    | (some file, w1) => .ok (some file, buffer1, w1)
    | (none, w1) =>
      match send_message_to_client w1 not_found_msg with
      | .ok w2 => .ok (none, buffer1, w2)
      | .undefined => .undefined
      | .blocked => .blocked
  | .undefined => .undefined
  | .blocked => .blocked

/-- The bytes `fgets` takes from the stream: at most `k`, ending with the first
newline. -/
def fgets_line : Nat → List Nat → List Nat
  | 0, _ => []
  | _ + 1, [] => []
  | k + 1, c :: cs => if c = 10 then [c] else c :: fgets_line k cs

/-- The library call `fgets(buf, size, file)`: `none` (NULL) at end of file,
otherwise the array contents written (the line and a NUL) and the rest of the
stream. -/
def fgets (size : Nat) (stream : List Nat) : Option (List Nat × List Nat) :=
  match stream with
  | [] => none
  | _ :: _ =>
    let line := fgets_line (size - 1) stream
    some (line ++ [0], stream.drop line.length)

/-- The loop `while (fgets(file_buffer, BUFFER_LEN, file) != NULL)
send_message_to_client(client_fd, file_buffer);` of `get_file`. Every iteration
takes at least one byte from the stream, so a fuel above the length of the
stream is never used up (`send_file_loop_total`). -/
def send_file_loop : Nat → World → List Nat → Res World
  | 0, _, _ => .blocked
  | fuel + 1, w, stream =>
    match fgets BUFFER_LEN stream with
    | none => .ok w
    | some (file_buffer, rest) =>
      match send_message_to_client w file_buffer with
      | .ok w1 => send_file_loop fuel w1 rest
      | .undefined => .undefined
      | .blocked => .blocked

/-- The function `get_file`. -/
def get_file (w : World) (mode_tail buffer : List Nat) : Res World :=
  match open_file w buffer 114 mode_tail (lit "SERVER 500 Get Error\n") (lit "SERVER 404 Not Found\n") with
  | .ok (none, _, w1) => .ok w1
  | .ok (some (.reader stream), _, w1) =>
    match send_message_to_client w1 (lit "SERVER 200 OK\n\n") with
    | .ok w2 =>
      match send_file_loop (stream.length + 1) w2 stream with
      | .ok w3 => send_message_to_client w3 (lit "\n\n\n")
      | .undefined => .undefined
      | .blocked => .blocked
    | .undefined => .undefined
    | .blocked => .blocked
  | .ok (some (.writer _), _, _) => .undefined
  | .undefined => .undefined
  | .blocked => .blocked

/-- The loop `while (1)` of `put_file`, one iteration per chunk the peer
delivers. -/
def put_loop (name : List Nat) : World → List Nat → Nat → List (List Nat) → Res World
  | _, _, _, [] => .blocked
  | w, buffer, empty_lines, chunk :: rest =>
    let r := receive_client_message buffer chunk
    let bytes_received := r.1
    let buffer1 := r.2
    let w1 := { w with recvs := w.recvs + 1 }
    match buffer1[0]? with
    | none => .undefined
    | some b0 =>
      let empty_lines1 := if bytes_received ≤ 2 ∧ b0 = 10 then empty_lines + 1 else 0
      if empty_lines1 > 1 then .ok w1
      else
        put_loop name
          { w1 with files := w1.files.append name (buffer1.take bytes_received.toNat) }
          buffer1 empty_lines1 rest

/-- The function `put_file`. -/
def put_file (w : World) (mode_tail buffer : List Nat) (incoming : List (List Nat)) :
    Res World :=
  match open_file w buffer 119 mode_tail (lit "SERVER 501 Put Error\n") (lit "SERVER 501 Put Error\n") with
  | .ok (none, _, w1) => .ok w1
  | .ok (some (.writer name), buffer1, w1) =>
    match put_loop name w1 buffer1 0 incoming with
    | .ok w2 => send_message_to_client w2 (lit "SERVER 201 Created\n")
    | .undefined => .undefined
    | .blocked => .blocked
  | .ok (some (.reader _), _, _) => .undefined
  | .undefined => .undefined
  | .blocked => .blocked

/-- The array `buffer` of `main` after `receive_client_message(client_fd,
buffer)` stored the request over its previous contents `stale`. -/
def request_buffer (stale request : List Nat) : List Nat :=
  (receive_client_message stale request).2

/-- The child-process branch of `main`: greet, receive one request into
`buffer`, dispatch on its first word. `stale` is what the uninitialised array
`buffer` holds before the receive and `scratch` what the uninitialised array
`input_first_word` holds at each call of `do_strings_match`; `mode_tail` are
the bytes behind `open_mode` when `open_file` calls `fopen`; `incoming` are the
chunks the later receives of `put_file` return. -/
def handle_client (fs : FileStore) (scratch stale mode_tail request : List Nat)
    (incoming : List (List Nat)) : Res World :=
  match send_message_to_client { sent := [], files := fs, opens := [], recvs := 0 }
      (lit "HELLO\n") with
  | .ok w =>
    let buffer := request_buffer stale request
    match do_strings_match scratch buffer (lit "get") with
    | .ok g =>
      if g = 0 then get_file w mode_tail buffer
      else
        match do_strings_match scratch buffer (lit "put") with
        | .ok p =>
          if p = 0 then put_file w mode_tail buffer incoming
          else
            match do_strings_match scratch buffer (lit "bye") with
            | .ok b =>
              if b ≠ 0 then send_message_to_client w (lit "SERVER 502 Command Error\n")
              else .ok w
            | .undefined => .undefined
            | .blocked => .blocked
        | .undefined => .undefined
        | .blocked => .blocked
    | .undefined => .undefined
    | .blocked => .blocked
  | .undefined => .undefined
  | .blocked => .blocked

/-- The initial contents used in examples for the arrays the program leaves
uninitialised: `n` zero bytes. -/
def zeros (n : Nat) : List Nat := List.replicate n 0

/-- A file store for examples: one readable file named `f`, every name writable. -/
def fsOne (contents : List Nat) : FileStore :=
  { read := fun n => if n = bytes "f" then some contents else none
    writable := fun _ => true
    accepts := fun _ _ => false }

/-- A file store for examples: no file can be opened, for reading or writing. -/
def fsNone : FileStore :=
  { read := fun _ => none
    writable := fun _ => false
    accepts := fun _ _ => false }

/-- Whether the run reached undefined behaviour. -/
def isUndefined (r : Res World) : Bool :=
  match r with
  | .undefined => true
  | _ => false

/-- What the client has been sent, when the run finished. -/
def sentOf (r : Res World) : Option (List (List Nat)) := r.val?.map World.sent

/-- The `fopen` calls made, when the run finished. -/
def opensOf (r : Res World) : Option (List (List Nat × Nat)) := r.val?.map World.opens

/-- The number of body chunks received, when the run finished. -/
def recvsOf (r : Res World) : Option Nat := r.val?.map World.recvs

/-- The contents of the file `name`, when the run finished. -/
def fileOf (r : Res World) (name : List Nat) : Option (List Nat) :=
  match r.val? with
  | some w => w.files.read name
  | none => none

/-- The connection right after the greeting was sent. -/
def greeted (fs : FileStore) : World :=
  { sent := [bytes "HELLO\n"], files := fs, opens := [], recvs := 0 }

/-- An empty-line chunk: at most two bytes, the first of them a newline. -/
def isEmptyLine (chunk : List Nat) : Prop := chunk.length ≤ 2 ∧ chunk.head? = some 10

instance (chunk : List Nat) : Decidable (isEmptyLine chunk) :=
  inferInstanceAs (Decidable (chunk.length ≤ 2 ∧ chunk.head? = some 10))

/-- The list of chunks ends with an empty-line chunk. -/
def endsWithEmptyLine (chunks : List (List Nat)) : Prop :=
  isEmptyLine (chunks.getLast?.getD [])

instance (chunks : List (List Nat)) : Decidable (endsWithEmptyLine chunks) :=
  inferInstanceAs (Decidable (isEmptyLine (chunks.getLast?.getD [])))

/-- The connection after `put_file` received the chunks and wrote each of them
to the file `name`. -/
def absorb (name : List Nat) (w : World) (chunks : List (List Nat)) : World :=
  chunks.foldl
    (fun w c => { w with recvs := w.recvs + 1, files := w.files.append name c }) w

/-- The argument of a request as the specification words it: the bytes after
the first space of the buffer with a trailing newline stripped, `none` when the
buffer holds no space. -/
def spec_argument (buffer : List Nat) : Option (List Nat) :=
  if 32 ∈ buffer then
    let after := (buffer.dropWhile (fun b => b ≠ 32)).drop 1
    some (if after.getLast? = some 10 then after.dropLast else after)
  else none

/-- The verb of a request as the specification words it: the bytes before the
first space or newline, lower-cased. -/
def spec_verb (request : List Nat) : List Nat :=
  (request.takeWhile (fun b => b ≠ 32 ∧ b ≠ 10)).map tolower

/-! ## Strings and arrays -/

theorem strlen_append_nul (s rest : List Nat) (h : 0 ∉ s) :
    strlen (s ++ 0 :: rest) = some s.length := by
  induction s with
  | nil => simp [strlen]
  | cons b s ih =>
    simp only [List.mem_cons, not_or] at h
    have hb : b ≠ 0 := fun e => h.1 e.symm
    simp [strlen, hb, ih h.2]

theorem send_lit (w : World) (s : List Nat) (h : 0 ∉ s) :
    send_message_to_client w (s ++ [0]) = .ok { w with sent := w.sent ++ [s] } := by
  simp [send_message_to_client, strlen_append_nul s [] h]

theorem strchr_found (pre rest : List Nat) (c : Nat) (h1 : c ∉ pre) (h0 : 0 ∉ pre) :
    strchr (pre ++ c :: rest) c = .ok (some pre.length) := by
  induction pre with
  | nil => simp [strchr]
  | cons b pre ih =>
    simp only [List.mem_cons, not_or] at h1 h0
    have hb : b ≠ c := fun e => h1.1 e.symm
    have hb0 : b ≠ 0 := fun e => h0.1 e.symm
    simp [strchr, hb, hb0, ih h1.2 h0.2]

theorem strchr_absent (pre rest : List Nat) (c : Nat) (hc : c ≠ 0) (h1 : c ∉ pre) :
    strchr (pre ++ 0 :: rest) c = .ok none := by
  induction pre with
  | nil => simp [strchr, hc.symm]
  | cons b pre ih =>
    simp only [List.mem_cons, not_or] at h1
    have hb : b ≠ c := fun e => h1.1 e.symm
    by_cases hb0 : b = 0
    · subst hb0
      simp [strchr, hc.symm]
    · simp [strchr, hb, hb0, ih h1.2]

theorem strcspn_nl_found (name rest : List Nat) (t : Nat) (h10 : 10 ∉ name) (h0 : 0 ∉ name)
    (ht : t = 10 ∨ t = 0) : strcspn_nl (name ++ t :: rest) = some name.length := by
  induction name with
  | nil => simp [strcspn_nl, ht]
  | cons b name ih =>
    simp only [List.mem_cons, not_or] at h10 h0
    have hb : ¬ (b = 10 ∨ b = 0) := by
      rintro (e | e)
      · exact h10.1 e.symm
      · exact h0.1 e.symm
    simp [strcspn_nl, hb, ih h10.2 h0.2]

theorem set_append_cons (a b : List Nat) (x y : Nat) :
    (a ++ x :: b).set a.length y = a ++ y :: b := by
  induction a with
  | nil => simp
  | cons c a ih => simp [ih]

theorem parse_filename_found (pre name rest : List Nat) (t : Nat)
    (hpre : 32 ∉ pre ∧ 0 ∉ pre) (hname : 10 ∉ name ∧ 0 ∉ name) (ht : t = 10 ∨ t = 0) :
    parse_filename (pre ++ 32 :: (name ++ t :: rest))
      = .ok (some (name, pre ++ 32 :: (name ++ 0 :: rest))) := by
  have hdrop : ∀ (tl : List Nat), (pre ++ 32 :: tl).drop (pre.length + 1) = tl := by
    intro tl
    have : pre ++ 32 :: tl = (pre ++ [32]) ++ tl := by simp
    rw [this]
    exact List.drop_left' (by simp)
  have hset : (pre ++ 32 :: (name ++ t :: rest)).set (pre.length + 1 + name.length) 0
      = pre ++ 32 :: (name ++ 0 :: rest) := by
    have e1 : pre ++ 32 :: (name ++ t :: rest) = (pre ++ 32 :: name) ++ t :: rest := by simp
    have e2 : pre ++ 32 :: (name ++ 0 :: rest) = (pre ++ 32 :: name) ++ 0 :: rest := by simp
    have e3 : pre.length + 1 + name.length = (pre ++ 32 :: name).length := by simp; omega
    rw [e1, e2, e3]
    exact set_append_cons _ _ _ _
  have hlt : pre.length + 1 + name.length < (pre ++ 32 :: (name ++ t :: rest)).length := by
    simp; omega
  simp only [parse_filename, strchr_found pre _ 32 hpre.1 hpre.2, hdrop,
    strcspn_nl_found name rest t hname.1 hname.2 ht, store, hlt, if_true, hset, c_string,
    strlen_append_nul name rest hname.2]
  simp

theorem parse_filename_absent (pre rest : List Nat) (h : 32 ∉ pre) :
    parse_filename (pre ++ 0 :: rest) = .ok none := by
  simp [parse_filename, strchr_absent pre rest 32 (by decide) h]

theorem exists_first (p : Nat → Prop) [DecidablePred p] (l : List Nat) (h : ∃ x ∈ l, p x) :
    ∃ pre c rest, l = pre ++ c :: rest ∧ (∀ x ∈ pre, ¬ p x) ∧ p c := by
  induction l with
  | nil => simp at h
  | cons b l ih =>
    by_cases hb : p b
    · exact ⟨[], b, l, by simp, by simp, hb⟩
    · have h1 : ∃ x ∈ l, p x := by
        obtain ⟨x, hx, hp⟩ := h
        rcases List.mem_cons.mp hx with e | e
        · exact absurd (e ▸ hp) hb
        · exact ⟨x, e, hp⟩
      obtain ⟨pre, c, rest, e, hpre, hc⟩ := ih h1
      refine ⟨b :: pre, c, rest, by simp [e], ?_, hc⟩
      intro x hx
      rcases List.mem_cons.mp hx with e1 | e1
      · exact e1 ▸ hb
      · exact hpre x e1

/-! ## The first-word scan -/

theorem take_set_succ (l : List Nat) (d v : Nat) (h : d < l.length) :
    (l.set d v).take (d + 1) = l.take d ++ [v] := by
  induction l generalizing d with
  | nil => simp at h
  | cons a l ih =>
    cases d with
    | zero => simp
    | succ d =>
      simp only [List.length_cons, Nat.add_lt_add_iff_right] at h
      simp [ih d h]

/-- The scan walks over a stretch `pre` of bytes that are neither space nor
newline, copying them lower-cased. -/
theorem first_word_loop_pass (input : List Nat) (pre : List Nat) :
    ∀ (done rest : List Nat) (s : WordScan) (fuel : Nat),
      input = done ++ pre ++ rest → (∀ x ∈ pre, x ≠ 32 ∧ x ≠ 10) →
      done.length + pre.length ≤ s.word.length →
      first_word_loop input (pre.length + fuel) done.length s
        = first_word_loop input fuel (done.length + pre.length)
            { word := s.word.take done.length ++ pre.map tolower
                ++ s.word.drop (done.length + pre.length)
              reads := s.reads ++ List.range' done.length pre.length
              writes := s.writes ++ List.range' done.length pre.length
              finished := s.finished } := by
  induction pre with
  | nil =>
    intro done rest s fuel _ _ _
    cases s
    simp
  | cons x pre ih =>
    intro done rest s fuel hin hpre hlen
    simp only [List.length_cons] at hlen ⊢
    have hx : x ≠ 32 ∧ x ≠ 10 := hpre x (List.mem_cons_self _ _)
    have hget : input[done.length]? = some x := by
      rw [hin, List.append_assoc, List.getElem?_append_right (Nat.le_refl _)]; simp
    have hlt : done.length < s.word.length := by omega
    have hfuel : pre.length + 1 + fuel = (pre.length + fuel) + 1 := by omega
    rw [hfuel]
    simp only [first_word_loop, hget, hx, store, hlt, ne_eq, not_false_eq_true, and_self,
      if_true]
    have hin1 : input = (done ++ [x]) ++ pre ++ rest := by rw [hin]; simp
    have hlen1 : (done ++ [x]).length + pre.length
        ≤ (s.word.set done.length (tolower x)).length := by
      simp only [List.length_append, List.length_cons, List.length_nil, List.length_set]
      omega
    have h := ih (done ++ [x]) rest
      { s with word := s.word.set done.length (tolower x), reads := s.reads ++ [done.length],
               writes := s.writes ++ [done.length] } fuel hin1
      (fun y hy => hpre y (List.mem_cons_of_mem _ hy)) hlen1
    simp only [List.length_append, List.length_cons, List.length_nil, Nat.zero_add] at h
    rw [h]
    have e1 : done.length + 1 + pre.length = done.length + (pre.length + 1) := by omega
    rw [e1]
    congr 1
    have e3 : (s.word.set done.length (tolower x)).drop (done.length + (pre.length + 1))
        = s.word.drop (done.length + (pre.length + 1)) :=
      List.drop_set_of_lt _ _ (by omega)
    simp only [take_set_succ _ _ _ hlt, e3, List.map_cons, List.range'_succ, List.append_assoc,
      List.singleton_append, List.cons_append, List.nil_append]

theorem first_word_loop_reads_mono (input : List Nat) (x : Nat) :
    ∀ (fuel i : Nat) (s : WordScan), x ∈ s.reads → x ∈ (first_word_loop input fuel i s).reads := by
  intro fuel
  induction fuel with
  | zero => intro i s h; simpa [first_word_loop] using h
  | succ fuel ih =>
    intro i s h
    unfold first_word_loop
    split
    · simp [h]
    · split
      · split
        · simp [h]
        · apply ih
          simp [h]
      · simp [h]

/-- A request whose first space or newline is the byte `c`, after the bytes
`pre`: the scan reads the indices `0 .. pre.length`, writes the indices below
`pre.length`, and leaves the lower-cased word at the start of the array. -/
theorem first_word_scan_stops (scratch pre rest : List Nat) (c : Nat)
    (hpre : ∀ x ∈ pre, x ≠ 32 ∧ x ≠ 10) (hc : c = 32 ∨ c = 10)
    (hlen : pre.length ≤ scratch.length) :
    first_word_scan scratch (pre ++ c :: rest)
      = { word := pre.map tolower ++ scratch.drop pre.length
          reads := List.range' 0 (pre.length + 1)
          writes := List.range' 0 pre.length
          finished := true } := by
  have hfuel : (pre ++ c :: rest).length + 1 = pre.length + (rest.length + 1 + 1) := by
    simp only [List.length_append, List.length_cons]; omega
  have h := first_word_loop_pass (pre ++ c :: rest) pre [] (c :: rest)
    { word := scratch, reads := [], writes := [], finished := false } (rest.length + 1 + 1)
    (by simp) hpre (by simpa using hlen)
  simp only [List.length_nil, Nat.zero_add, List.take_zero, List.nil_append] at h
  unfold first_word_scan
  rw [hfuel, h]
  have hget : (pre ++ c :: rest)[pre.length]? = some c := by
    rw [List.getElem?_append_right (Nat.le_refl _)]; simp
  have hstop : ¬ (c ≠ 32 ∧ c ≠ 10) := by
    rcases hc with e | e <;> simp [e]
  simp only [first_word_loop, hget, hstop, if_false]
  congr 1
  exact (List.range'_concat 0 pre.length).symm ▸ by simp

/-- When none of the first `pre.length` bytes of the array is a space or a
newline, the scan reads the index `pre.length`. -/
theorem first_word_scan_runs_on (scratch pre rest : List Nat)
    (hpre : ∀ x ∈ pre, x ≠ 32 ∧ x ≠ 10) (hlen : pre.length ≤ scratch.length) :
    pre.length ∈ (first_word_scan scratch (pre ++ rest)).reads := by
  have hfuel : (pre ++ rest).length + 1 = pre.length + (rest.length + 1) := by
    simp only [List.length_append]; omega
  have h := first_word_loop_pass (pre ++ rest) pre [] rest
    { word := scratch, reads := [], writes := [], finished := false } (rest.length + 1)
    (by simp) hpre (by simpa using hlen)
  simp only [List.length_nil, Nat.zero_add, List.take_zero, List.nil_append] at h
  unfold first_word_scan
  rw [hfuel, h]
  unfold first_word_loop
  split
  · simp
  · split
    · split
      · simp
      · apply first_word_loop_reads_mono
        simp
    · simp

theorem request_buffer_eq (stale request : List Nat) (hn : request.length ≤ BUFFER_LEN) :
    request_buffer stale request = request ++ stale.drop request.length := by
  simp [request_buffer, receive_client_message, List.take_of_length_le hn]

/-- C10. For a request of `n ≤ 100` received bytes and the 100-byte scratch
array, the first-word scan of `do_strings_match` ends through its loop
condition with every index it reads and every index it writes below `n`
exactly when the received bytes contain a space or a newline; when they
contain neither, the scan reads index `n`, past the received bytes. -/
theorem verb_scan_bounds (request stale scratch : List Nat)
    (hn : request.length ≤ BUFFER_LEN) (hscratch : scratch.length = BUFFER_LEN) :
    (((first_word_scan scratch (request_buffer stale request)).finished = true
        ∧ (∀ i ∈ (first_word_scan scratch (request_buffer stale request)).reads,
            i < request.length)
        ∧ (∀ i ∈ (first_word_scan scratch (request_buffer stale request)).writes,
            i < request.length))
      ↔ (32 ∈ request ∨ 10 ∈ request))
    ∧ ((32 ∉ request ∧ 10 ∉ request) →
        request.length ∈ (first_word_scan scratch (request_buffer stale request)).reads) := by
  have hlen : request.length ≤ scratch.length := by rw [hscratch]; exact hn
  have hpast : (32 ∉ request ∧ 10 ∉ request) →
      request.length ∈ (first_word_scan scratch (request_buffer stale request)).reads := by
    intro hno
    rw [request_buffer_eq stale request hn]
    apply first_word_scan_runs_on scratch request _ _ hlen
    intro x hx
    constructor
    · intro e; exact hno.1 (e ▸ hx)
    · intro e; exact hno.2 (e ▸ hx)
  refine ⟨⟨?_, ?_⟩, hpast⟩
  · rintro ⟨_, hreads, _⟩
    by_contra hcon
    simp only [not_or] at hcon
    exact absurd (hreads _ (hpast hcon)) (Nat.lt_irrefl _)
  · intro h
    have hex : ∃ x ∈ request, x = 32 ∨ x = 10 := by
      rcases h with h | h
      · exact ⟨32, h, Or.inl rfl⟩
      · exact ⟨10, h, Or.inr rfl⟩
    obtain ⟨pre, c, rest, e, hpre, hc⟩ := exists_first (fun x => x = 32 ∨ x = 10) request hex
    have hpre1 : ∀ x ∈ pre, x ≠ 32 ∧ x ≠ 10 := fun x hx => not_or.mp (hpre x hx)
    have hlen1 : pre.length ≤ scratch.length := by
      have : pre.length ≤ request.length := by rw [e]; simp
      omega
    have hl : request.length = pre.length + 1 + rest.length := by
      rw [e]; simp only [List.length_append, List.length_cons]; omega
    rw [request_buffer_eq stale request hn]
    have e2 : request ++ stale.drop request.length
        = pre ++ c :: (rest ++ stale.drop request.length) := by rw [e]; simp
    rw [e2, first_word_scan_stops scratch pre _ c hpre1 hc hlen1]
    refine ⟨rfl, ?_, ?_⟩
    · intro i hi
      have := (List.mem_range'_1.mp hi).2
      omega
    · intro i hi
      have := (List.mem_range'_1.mp hi).2
      omega

/-- Witness for `verb_scan_bounds`: the request `GET f\n`. -/
theorem verb_scan_bounds_witness :
    (((first_word_scan (zeros 100) (request_buffer (zeros 100) (bytes "GET f\n"))).finished = true
        ∧ (∀ i ∈ (first_word_scan (zeros 100)
              (request_buffer (zeros 100) (bytes "GET f\n"))).reads,
            i < (bytes "GET f\n").length)
        ∧ (∀ i ∈ (first_word_scan (zeros 100)
              (request_buffer (zeros 100) (bytes "GET f\n"))).writes,
            i < (bytes "GET f\n").length))
      ↔ (32 ∈ bytes "GET f\n" ∨ 10 ∈ bytes "GET f\n"))
    ∧ ((32 ∉ bytes "GET f\n" ∧ 10 ∉ bytes "GET f\n") →
        (bytes "GET f\n").length
          ∈ (first_word_scan (zeros 100) (request_buffer (zeros 100) (bytes "GET f\n"))).reads) :=
  verb_scan_bounds (bytes "GET f\n") (zeros 100) (zeros 100) (by decide) (by decide)

/-! ## Sending a file -/

theorem send_text (w : World) (s : String) (h : 0 ∉ bytes s) :
    send_message_to_client w (lit s) = .ok { w with sent := w.sent ++ [bytes s] } :=
  send_lit w (bytes s) h

theorem fgets_line_append_drop : ∀ (k : Nat) (s : List Nat),
    fgets_line k s ++ s.drop (fgets_line k s).length = s := by
  intro k
  induction k with
  | zero => intro s; simp [fgets_line]
  | succ k ih =>
    intro s
    cases s with
    | nil => simp [fgets_line]
    | cons c cs =>
      by_cases hc : c = 10
      · simp [fgets_line, hc]
      · simp [fgets_line, hc, ih cs]

theorem fgets_line_pos (k : Nat) (c : Nat) (cs : List Nat) :
    1 ≤ (fgets_line (k + 1) (c :: cs)).length := by
  by_cases hc : c = 10 <;> simp [fgets_line, hc]

/-- On a stream without NUL bytes the sending loop of `get_file` ends and the
chunks it sends add up to the stream. -/
theorem send_file_loop_exact : ∀ (fuel : Nat) (stream : List Nat) (w : World),
    0 ∉ stream → stream.length < fuel →
    ∃ chunks : List (List Nat),
      send_file_loop fuel w stream = .ok { w with sent := w.sent ++ chunks }
        ∧ chunks.flatten = stream := by
  intro fuel
  induction fuel with
  | zero => intro stream w _ h; omega
  | succ fuel ih =>
    intro stream w h0 hlen
    cases stream with
    | nil =>
      refine ⟨[], ?_, rfl⟩
      cases w
      simp [send_file_loop, fgets]
    | cons c cs =>
      have hpre := fgets_line_append_drop 99 (c :: cs)
      have hpos := fgets_line_pos 98 c cs
      generalize hline : fgets_line 99 (c :: cs) = line at hpre hpos
      have h0line : 0 ∉ line := by
        intro hmem
        apply h0
        rw [← hpre]
        exact List.mem_append_left _ hmem
      have h0rest : 0 ∉ (c :: cs).drop line.length := by
        intro hmem
        apply h0
        rw [← hpre]
        exact List.mem_append_right _ hmem
      have hlenrest : ((c :: cs).drop line.length).length < fuel := by
        simp only [List.length_drop, List.length_cons] at hlen ⊢
        omega
      obtain ⟨chunks, hrun, hjoin⟩ := ih ((c :: cs).drop line.length)
        { w with sent := w.sent ++ [line] } h0rest hlenrest
      refine ⟨line :: chunks, ?_, ?_⟩
      · simp only [send_file_loop, fgets, BUFFER_LEN, Nat.add_one_sub_one, hline,
          send_lit w line h0line, hrun]
        simp
      · simp only [List.flatten_cons, hjoin]
        exact hpre

/-- The sending loop of `get_file` ends on every stream when its fuel exceeds
the length of the stream. -/
theorem send_file_loop_total : ∀ (fuel : Nat) (stream : List Nat) (w : World),
    stream.length < fuel → ∃ w1 : World, send_file_loop fuel w stream = .ok w1 := by
  intro fuel
  induction fuel with
  | zero => intro stream w h; omega
  | succ fuel ih =>
    intro stream w hlen
    cases stream with
    | nil => exact ⟨w, by simp [send_file_loop, fgets]⟩
    | cons c cs =>
      have hpos := fgets_line_pos 98 c cs
      generalize hline : fgets_line 99 (c :: cs) = line at hpos
      have hlenrest : ((c :: cs).drop line.length).length < fuel := by
        simp only [List.length_drop, List.length_cons] at hlen ⊢
        omega
      have hsend : ∃ w1 : World, send_message_to_client w (line ++ [0]) = .ok w1 := by
        unfold send_message_to_client
        cases hs : strlen (line ++ [0]) with
        | none =>
          exfalso
          have : ∀ l : List Nat, strlen (l ++ [0]) ≠ none := by
            intro l
            induction l with
            | nil => simp [strlen]
            | cons b l ihl =>
              by_cases hb : b = 0
              · simp [strlen, hb]
              · cases hl : strlen (l ++ [0]) with
                | none => exact absurd hl ihl
                | some n => simp [strlen, hb, hl]
          exact this line hs
        | some n => exact ⟨_, rfl⟩
      obtain ⟨w1, hw1⟩ := hsend
      obtain ⟨w2, hw2⟩ := ih ((c :: cs).drop line.length) w1 hlenrest
      refine ⟨w2, ?_⟩
      simp only [send_file_loop, fgets, BUFFER_LEN, Nat.add_one_sub_one, hline, hw1, hw2]

/-! ## Dispatch -/

theorem lit_get : lit "get" = [103, 101, 116, 0] := by decide

theorem lit_put : lit "put" = [112, 117, 116, 0] := by decide

theorem lit_bye : lit "bye" = [98, 121, 101, 0] := by decide

/-- A first word that compares equal to `put` does not compare equal to `get`. -/
theorem match_put_not_get (scratch buffer : List Nat)
    (h : do_strings_match scratch buffer (lit "put") = .ok 0) :
    do_strings_match scratch buffer (lit "get") = .ok 9 := by
  unfold do_strings_match at h ⊢
  simp only [lit_put, lit_get] at h ⊢
  cases hfin : (first_word_scan scratch buffer).finished with
  | false => simp [hfin] at h
  | true =>
    simp only [hfin, if_true] at h ⊢
    cases hw : (first_word_scan scratch buffer).word with
    | nil => simp [hw, strcmp] at h
    | cons x a =>
      rw [hw] at h
      by_cases hx : x = 112
      · subst hx
        simp [strcmp]
      · exfalso
        simp only [strcmp, ne_eq, hx, not_false_eq_true, if_true, Res.ok.injEq] at h
        omega

theorem handle_get (fs : FileStore) (scratch stale mode_tail request : List Nat)
    (incoming : List (List Nat))
    (hverb : do_strings_match scratch (request_buffer stale request) (lit "get") = .ok 0) :
    handle_client fs scratch stale mode_tail request incoming
      = get_file (greeted fs) mode_tail (request_buffer stale request) := by
  unfold handle_client
  rw [send_text _ "HELLO\n" (by decide)]
  simp [hverb, greeted]

theorem handle_put (fs : FileStore) (scratch stale mode_tail request : List Nat)
    (incoming : List (List Nat))
    (hverb : do_strings_match scratch (request_buffer stale request) (lit "put") = .ok 0) :
    handle_client fs scratch stale mode_tail request incoming
      = put_file (greeted fs) mode_tail (request_buffer stale request) incoming := by
  unfold handle_client
  rw [send_text _ "HELLO\n" (by decide)]
  simp [hverb, match_put_not_get _ _ hverb, greeted]

/-! ## The GET path -/

theorem get_file_no_name (w : World) (mode_tail buffer : List Nat)
    (h : parse_filename buffer = .ok none) :
    get_file w mode_tail buffer = .ok { w with sent := w.sent ++ [bytes "SERVER 500 Get Error\n"] } := by
  simp [get_file, open_file, h, send_text w "SERVER 500 Get Error\n" (by decide)]

theorem get_file_missing (w : World) (mode_tail buffer name buffer1 : List Nat)
    (h : parse_filename buffer = .ok (some (name, buffer1)))
    (hmiss : w.files.read name = none) :
    get_file w mode_tail buffer
      = .ok { w with sent := w.sent ++ [bytes "SERVER 404 Not Found\n"]
                     opens := w.opens ++ [(name, 114)] } := by
  have hf : fopen w name 114 mode_tail
      = (none, { w with opens := w.opens ++ [(name, 114)] }) := by
    unfold fopen
    split <;> simp [hmiss]
  simp [get_file, open_file, h, hf, send_text _ "SERVER 404 Not Found\n" (by decide)]

theorem mode_string_plain (open_mode : Nat) (mode_tail : List Nat)
    (h : mode_tail.head? = some 0) : mode_string open_mode mode_tail = [open_mode] := by
  cases mode_tail with
  | nil => simp at h
  | cons b tl =>
    simp only [List.head?_cons, Option.some.injEq] at h
    simp [mode_string, h]

theorem get_file_found (w : World) (mode_tail buffer name buffer1 contents : List Nat)
    (h : parse_filename buffer = .ok (some (name, buffer1)))
    (hmode : mode_tail.head? = some 0)
    (hread : w.files.read name = some contents) (h0 : 0 ∉ contents) :
    ∃ chunks : List (List Nat),
      get_file w mode_tail buffer
        = .ok { w with sent := w.sent ++ [bytes "SERVER 200 OK\n\n"] ++ chunks
                                ++ [bytes "\n\n\n"]
                       opens := w.opens ++ [(name, 114)] }
      ∧ chunks.flatten = contents := by
  obtain ⟨chunks, hrun, hjoin⟩ := send_file_loop_exact (contents.length + 1) contents
    { w with sent := w.sent ++ [bytes "SERVER 200 OK\n\n"]
             opens := w.opens ++ [(name, 114)] } h0 (Nat.lt_succ_self _)
  refine ⟨chunks, ?_, hjoin⟩
  simp [get_file, open_file, h, fopen, mode_string_plain 114 mode_tail hmode, hread,
    send_text _ "SERVER 200 OK\n\n" (by decide), hrun,
    send_text _ "\n\n\n" (by decide)]

/-! ## The PUT path -/

theorem receive_chunk (buffer chunk : List Nat) (h : chunk.length ≤ BUFFER_LEN) :
    receive_client_message buffer chunk
      = ((chunk.length : Int), chunk ++ buffer.drop chunk.length) := by
  unfold BUFFER_LEN at h
  have h1 : chunk.length % 256 = chunk.length := Nat.mod_eq_of_lt (by omega)
  have h2 : chunk.length < 128 := by omega
  simp [receive_client_message, BUFFER_LEN, List.take_of_length_le h, to_char, h1, h2]

/-- One iteration of the loop of `put_file` on a non-empty chunk. -/
theorem put_loop_step (name : List Nat) (w : World) (buffer : List Nat) (e : Nat)
    (chunk : List Nat) (rest : List (List Nat))
    (h1 : 1 ≤ chunk.length) (h100 : chunk.length ≤ BUFFER_LEN) :
    put_loop name w buffer e (chunk :: rest)
      = if (if isEmptyLine chunk then e + 1 else 0) > 1 then
          .ok { w with recvs := w.recvs + 1 }
        else
          put_loop name { w with recvs := w.recvs + 1, files := w.files.append name chunk }
            (chunk ++ buffer.drop chunk.length) (if isEmptyLine chunk then e + 1 else 0) rest := by
  cases chunk with
  | nil => simp at h1
  | cons b cs =>
    have hcond : (((((b :: cs).length : Nat) : Int) ≤ 2) ∧ b = 10) ↔ isEmptyLine (b :: cs) := by
      simp only [isEmptyLine, List.head?_cons, Option.some.injEq]
      constructor
      · rintro ⟨h, hb⟩; exact ⟨by exact_mod_cast h, hb⟩
      · rintro ⟨h, hb⟩; exact ⟨by exact_mod_cast h, hb⟩
    have htake : List.take (b :: cs).length (b :: cs ++ List.drop (b :: cs).length buffer)
        = b :: cs := by
      rw [List.take_left']
      rfl
    conv_lhs => rw [put_loop]
    simp only [receive_chunk buffer (b :: cs) h100, List.cons_append, List.getElem?_cons_zero,
      hcond, Int.toNat_ofNat]
    rw [← List.cons_append, htake]

theorem absorb_sent (name : List Nat) : ∀ (B : List (List Nat)) (w : World),
    (absorb name w B).sent = w.sent := by
  intro B
  induction B with
  | nil => intro w; rfl
  | cons c B ih => intro w; simp only [absorb, List.foldl_cons] at ih ⊢; rw [ih]

theorem absorb_opens (name : List Nat) : ∀ (B : List (List Nat)) (w : World),
    (absorb name w B).opens = w.opens := by
  intro B
  induction B with
  | nil => intro w; rfl
  | cons c B ih => intro w; simp only [absorb, List.foldl_cons] at ih ⊢; rw [ih]

theorem absorb_recvs (name : List Nat) : ∀ (B : List (List Nat)) (w : World),
    (absorb name w B).recvs = w.recvs + B.length := by
  intro B
  induction B with
  | nil => intro w; rfl
  | cons c B ih =>
    intro w
    simp only [absorb, List.foldl_cons, List.length_cons] at ih ⊢
    rw [ih]; simp only []; omega

theorem absorb_read (name : List Nat) : ∀ (B : List (List Nat)) (w : World) (acc : List Nat),
    w.files.read name = some acc →
    (absorb name w B).files.read name = some (acc ++ B.flatten) := by
  intro B
  induction B with
  | nil => intro w acc h; simpa [absorb] using h
  | cons c B ih =>
    intro w acc h
    simp only [absorb, List.foldl_cons, List.flatten_cons] at ih ⊢
    rw [ih _ (acc ++ c) (by simp [FileStore.append, h])]
    simp

theorem absorb_read_other (name : List Nat) : ∀ (B : List (List Nat)) (w : World) (n : List Nat),
    n ≠ name → (absorb name w B).files.read n = w.files.read n := by
  intro B
  induction B with
  | nil => intro w n _; rfl
  | cons c B ih =>
    intro w n h
    simp only [absorb, List.foldl_cons] at ih ⊢
    rw [ih _ n h]
    simp [FileStore.append, h]

theorem endsWithEmptyLine_cons (c : List Nat) (B : List (List Nat)) (h : B ≠ []) :
    endsWithEmptyLine (c :: B) ↔ endsWithEmptyLine B := by
  cases B with
  | nil => exact absurd rfl h
  | cons d B => simp [endsWithEmptyLine, List.getLast?_cons_cons]

/-- The loop of `put_file` runs through a list of non-empty chunks that holds no
two consecutive empty-line chunks, writing every one of them. -/
theorem put_loop_absorbs (name : List Nat) (tail : List (List Nat)) :
    ∀ (B : List (List Nat)) (w : World) (buffer : List Nat) (e : Nat), e ≤ 1 →
      (∀ c ∈ B, 1 ≤ c.length ∧ c.length ≤ BUFFER_LEN) →
      List.Chain' (fun a b => ¬ (isEmptyLine a ∧ isEmptyLine b)) B →
      (e = 1 → ∀ c, B.head? = some c → ¬ isEmptyLine c) →
      ∃ (buffer1 : List Nat) (e1 : Nat),
        put_loop name w buffer e (B ++ tail) = put_loop name (absorb name w B) buffer1 e1 tail
          ∧ e1 ≤ 1 ∧ (B ≠ [] → (e1 = 1 ↔ endsWithEmptyLine B)) ∧ (B = [] → e1 = e) := by
  intro B
  induction B with
  | nil =>
    intro w buffer e he _ _ _
    exact ⟨buffer, e, rfl, he, fun h => absurd rfl h, fun _ => rfl⟩
  | cons c B ih =>
    intro w buffer e he hsize hchain hhead
    have hc := hsize c (List.mem_cons_self _ _)
    have hchain' := List.chain'_cons'.mp hchain
    have he1 : (if isEmptyLine c then e + 1 else 0) ≤ 1 := by
      split
      · rename_i hcE
        have : e ≠ 1 := fun h1 => hhead h1 c rfl hcE
        omega
      · omega
    obtain ⟨buffer1, e1, hrun, hle, hne, hnil⟩ := ih
      { w with recvs := w.recvs + 1, files := w.files.append name c }
      (c ++ buffer.drop c.length) (if isEmptyLine c then e + 1 else 0) he1
      (fun d hd => hsize d (List.mem_cons_of_mem _ hd)) hchain'.2
      (by
        intro h1 d hd hdE
        have hcE : isEmptyLine c := by
          by_contra hcon
          simp [hcon] at h1
        exact hchain'.1 d (by simpa using hd) ⟨hcE, hdE⟩)
    refine ⟨buffer1, e1, ?_, hle, ?_, fun h => absurd h (List.cons_ne_nil _ _)⟩
    · rw [List.cons_append, put_loop_step name w buffer e c (B ++ tail) hc.1 hc.2,
        if_neg (by omega), hrun]
      rfl
    · intro _
      by_cases hB : B = []
      · subst hB
        rw [hnil rfl]
        simp only [endsWithEmptyLine, List.getLast?_singleton, Option.getD_some]
        constructor
        · intro h1
          by_contra hcon
          simp [hcon] at h1
        · intro hcE
          have : e ≠ 1 := fun h1 => hhead h1 c rfl hcE
          simp only [hcE, if_true]
          omega
      · rw [endsWithEmptyLine_cons c B hB]
        exact hne hB

theorem isEmptyLine_size (t : List Nat) (h : isEmptyLine t) :
    1 ≤ t.length ∧ t.length ≤ BUFFER_LEN := by
  cases t with
  | nil => simp [isEmptyLine] at h
  | cons b cs =>
    have := h.1
    simp only [List.length_cons, BUFFER_LEN] at this ⊢
    omega

theorem put_file_no_name (w : World) (mode_tail buffer : List Nat)
    (incoming : List (List Nat))
    (h : parse_filename buffer = .ok none) :
    put_file w mode_tail buffer incoming
      = .ok { w with sent := w.sent ++ [bytes "SERVER 501 Put Error\n"] } := by
  simp [put_file, open_file, h, send_text w "SERVER 501 Put Error\n" (by decide)]

theorem put_file_unwritable (w : World) (mode_tail buffer name buffer1 : List Nat)
    (incoming : List (List Nat))
    (h : parse_filename buffer = .ok (some (name, buffer1)))
    (hw : w.files.writable name = false) :
    put_file w mode_tail buffer incoming
      = .ok { w with sent := w.sent ++ [bytes "SERVER 501 Put Error\n"]
                     opens := w.opens ++ [(name, 119)] } := by
  have hf : fopen w name 119 mode_tail
      = (none, { w with opens := w.opens ++ [(name, 119)] }) := by
    unfold fopen
    split <;> simp [hw]
  simp [put_file, open_file, h, hf, send_text _ "SERVER 501 Put Error\n" (by decide)]

/-- A successful PUT: what `put_file` leaves in the file and sends, for a body
`B` of non-empty chunks without two consecutive empty-line chunks, followed by
the two empty-line chunks `t1`, `t2`. -/
theorem put_file_stored (w : World) (mode_tail buffer name buffer1 : List Nat)
    (B : List (List Nat)) (t1 t2 : List Nat) (extra : List (List Nat))
    (hparse : parse_filename buffer = .ok (some (name, buffer1)))
    (hmode : mode_tail.head? = some 0)
    (hwr : w.files.writable name = true)
    (hsize : ∀ c ∈ B, 1 ≤ c.length ∧ c.length ≤ BUFFER_LEN)
    (hchain : List.Chain' (fun a b => ¬ (isEmptyLine a ∧ isEmptyLine b)) B)
    (ht1 : isEmptyLine t1) (ht2 : isEmptyLine t2) :
    ∃ w1 : World,
      put_file w mode_tail buffer (B ++ t1 :: t2 :: extra) = .ok w1
        ∧ w1.sent = w.sent ++ [bytes "SERVER 201 Created\n"]
        ∧ w1.files.read name
            = some (B.flatten ++ if endsWithEmptyLine B then [] else t1)
        ∧ (∀ n, n ≠ name → w1.files.read n = w.files.read n)
        ∧ w1.opens = w.opens ++ [(name, 119)]
        ∧ w1.recvs = w.recvs + B.length + (if endsWithEmptyLine B then 1 else 2) := by
  obtain ⟨buf, e1, hrun, hle, hne, hnil⟩ := put_loop_absorbs name (t1 :: t2 :: extra) B
    { w with opens := w.opens ++ [(name, 119)], files := w.files.truncate name }
    buffer1 0 (Nat.zero_le _) hsize hchain (fun h => absurd h (by decide))
  have hs1 := isEmptyLine_size t1 ht1
  have hs2 := isEmptyLine_size t2 ht2
  have hopen : put_file w mode_tail buffer (B ++ t1 :: t2 :: extra)
      = match put_loop name
            { w with opens := w.opens ++ [(name, 119)], files := w.files.truncate name }
            buffer1 0 (B ++ t1 :: t2 :: extra) with
        | .ok w2 => send_message_to_client w2 (lit "SERVER 201 Created\n")
        | .undefined => .undefined
        | .blocked => .blocked := by
    simp [put_file, open_file, hparse, fopen, mode_string_plain 119 mode_tail hmode, hwr]
  have hread0 : ({ w with opens := w.opens ++ [(name, 119)],
                          files := w.files.truncate name } : World).files.read name
      = some [] := by simp [FileStore.truncate]
  have hother0 : ∀ n, n ≠ name →
      ({ w with opens := w.opens ++ [(name, 119)],
                files := w.files.truncate name } : World).files.read n = w.files.read n := by
    intro n hn; simp [FileStore.truncate, hn]
  have hends : endsWithEmptyLine B ↔ e1 = 1 := by
    by_cases hB : B = []
    · subst hB
      have := hnil rfl
      simp [endsWithEmptyLine, isEmptyLine, this]
    · exact (hne hB).symm
  rw [hopen, hrun]
  by_cases hE : endsWithEmptyLine B
  · have he1 : e1 = 1 := hends.mp hE
    subst he1
    rw [put_loop_step name _ buf 1 t1 (t2 :: extra) hs1.1 hs1.2]
    simp only [ht1, if_true, gt_iff_lt, Nat.lt_add_one, hE]
    rw [send_text _ "SERVER 201 Created\n" (by decide)]
    refine ⟨_, rfl, ?_, ?_, ?_, ?_, ?_⟩
    · simp [absorb_sent]
    · simp [absorb_read name B _ [] hread0]
    · intro n hn
      simp [absorb_read_other name B _ n hn, FileStore.truncate, hn]
    · simp [absorb_opens]
    · simp [absorb_recvs]
  · have he1 : e1 = 0 := by
      have : e1 ≠ 1 := fun h => hE (hends.mpr h)
      omega
    subst he1
    rw [put_loop_step name _ buf 0 t1 (t2 :: extra) hs1.1 hs1.2]
    simp only [ht1, if_true, gt_iff_lt, Nat.zero_add, Nat.lt_irrefl, if_false, hE]
    rw [put_loop_step name _ _ 1 t2 extra hs2.1 hs2.2]
    simp only [ht2, if_true, gt_iff_lt, Nat.lt_add_one]
    rw [send_text _ "SERVER 201 Created\n" (by decide)]
    refine ⟨_, rfl, ?_, ?_, ?_, ?_, ?_⟩
    · simp [absorb_sent]
    · simp [FileStore.append, absorb_read name B _ [] hread0]
    · intro n hn
      simp [FileStore.append, absorb_read_other name B _ n hn, FileStore.truncate, hn]
    · simp [absorb_opens]
    · simp [absorb_recvs]

/-- Without a terminator the loop of `put_file` keeps waiting: on a list of
non-empty chunks that holds no two consecutive empty-line chunks it does not
stop. -/
theorem put_loop_waits (name : List Nat) (w : World) (buffer : List Nat)
    (B : List (List Nat))
    (hsize : ∀ c ∈ B, 1 ≤ c.length ∧ c.length ≤ BUFFER_LEN)
    (hchain : List.Chain' (fun a b => ¬ (isEmptyLine a ∧ isEmptyLine b)) B) :
    put_loop name w buffer 0 B = .blocked := by
  obtain ⟨buf, e1, hrun, _, _, _⟩ := put_loop_absorbs name [] B w buffer 0 (Nat.zero_le _)
    hsize hchain (fun h => absurd h (by decide))
  rw [List.append_nil] at hrun
  rw [hrun]
  rfl

/-! ## The verb comparison on a terminated word -/

theorem strcmp_terminated (a : List Nat) : ∀ (b r : List Nat), 0 ∉ a → 0 ∉ b →
    ∃ k : Int, strcmp (a ++ 0 :: r) (b ++ [0]) = .ok k ∧ (k = 0 ↔ a = b) := by
  induction a with
  | nil =>
    intro b r _ hb
    cases b with
    | nil => exact ⟨0, by simp [strcmp], by simp⟩
    | cons y b =>
      simp only [List.mem_cons, not_or] at hb
      have hy : (0 : Nat) ≠ y := hb.1
      refine ⟨(0 : Int) - (y : Int), by simp [strcmp, hy], ?_⟩
      constructor
      · intro h; omega
      · intro h; simp at h
  | cons x a ih =>
    intro b r ha hb
    simp only [List.mem_cons, not_or] at ha
    have hx : x ≠ 0 := fun e => ha.1 e.symm
    cases b with
    | nil =>
      refine ⟨(x : Int) - 0, by simp [strcmp, hx], ?_⟩
      constructor
      · intro h; omega
      · intro h; simp at h
    | cons y b =>
      simp only [List.mem_cons, not_or] at hb
      by_cases hxy : x = y
      · subst hxy
        obtain ⟨k, hk, hiff⟩ := ih b r ha.2 hb.2
        refine ⟨k, by simp [strcmp, hx, hk], ?_⟩
        simp [hiff]
      · refine ⟨(x : Int) - (y : Int), by simp [strcmp, hxy], ?_⟩
        constructor
        · intro h; omega
        · intro h; simp [hxy] at h

theorem tolower_ne_zero (x : Nat) (h : x ≠ 0) : tolower x ≠ 0 := by
  unfold tolower
  split <;> omega

/-- When the byte of `input_first_word` behind the copied word is NUL and the
first word `v` of the input holds no NUL byte, `do_strings_match` returns 0
exactly when the lower-cased word is the target. -/
theorem do_strings_match_terminated (scratch v rest : List Nat) (c : Nat) (t : List Nat)
    (hv : ∀ x ∈ v, x ≠ 32 ∧ x ≠ 10) (hv0 : 0 ∉ v) (hc : c = 32 ∨ c = 10)
    (hterm : scratch[v.length]? = some 0) (ht : 0 ∉ t) :
    ∃ k : Int, do_strings_match scratch (v ++ c :: rest) (t ++ [0]) = .ok k
      ∧ (k = 0 ↔ v.map tolower = t) := by
  have hlt : v.length < scratch.length := by
    by_contra hcon
    rw [List.getElem?_eq_none (by omega)] at hterm
    cases hterm
  have hdrop : scratch.drop v.length = 0 :: scratch.drop (v.length + 1) := by
    rw [List.drop_eq_getElem_cons hlt]
    congr 1
    rw [List.getElem?_eq_getElem hlt] at hterm
    exact Option.some.inj hterm
  have h0 : 0 ∉ v.map tolower := by
    intro hmem
    obtain ⟨x, hx, hx0⟩ := List.mem_map.mp hmem
    exact tolower_ne_zero x (fun e => hv0 (e ▸ hx)) hx0
  obtain ⟨k, hk, hiff⟩ := strcmp_terminated (v.map tolower) t (scratch.drop (v.length + 1)) h0 ht
  refine ⟨k, ?_, hiff⟩
  unfold do_strings_match
  simp only [first_word_scan_stops scratch v rest c hv hc (Nat.le_of_lt hlt), if_true, hdrop]
  exact hk

/-- The dispatch of `handle_client` when the byte of `input_first_word` behind
the copied word is NUL and the first word `v` of the buffer holds no NUL byte:
the GET path when the lower-cased word is `get`, the PUT path when it is `put`,
nothing after the greeting when it is `bye`, `SERVER 502 Command Error\n`
otherwise. -/
theorem dispatch_table (fs : FileStore) (scratch stale mode_tail request : List Nat)
    (incoming : List (List Nat)) (v rest : List Nat) (c : Nat)
    (hbuf : request_buffer stale request = v ++ c :: rest)
    (hv : ∀ x ∈ v, x ≠ 32 ∧ x ≠ 10) (hv0 : 0 ∉ v) (hc : c = 32 ∨ c = 10)
    (hterm : scratch[v.length]? = some 0) :
    handle_client fs scratch stale mode_tail request incoming
      = if v.map tolower = bytes "get" then get_file (greeted fs) mode_tail (v ++ c :: rest)
        else if v.map tolower = bytes "put" then
          put_file (greeted fs) mode_tail (v ++ c :: rest) incoming
        else if v.map tolower = bytes "bye" then .ok (greeted fs)
        else .ok { sent := [bytes "HELLO\n", bytes "SERVER 502 Command Error\n"]
                   files := fs, opens := [], recvs := 0 } := by
  obtain ⟨g, hg, hgiff⟩ := do_strings_match_terminated scratch v rest c (bytes "get")
    hv hv0 hc hterm (by decide)
  obtain ⟨p, hp, hpiff⟩ := do_strings_match_terminated scratch v rest c (bytes "put")
    hv hv0 hc hterm (by decide)
  obtain ⟨b, hb, hbiff⟩ := do_strings_match_terminated scratch v rest c (bytes "bye")
    hv hv0 hc hterm (by decide)
  have hg1 : do_strings_match scratch (v ++ c :: rest) (lit "get") = .ok g := hg
  have hp1 : do_strings_match scratch (v ++ c :: rest) (lit "put") = .ok p := hp
  have hb1 : do_strings_match scratch (v ++ c :: rest) (lit "bye") = .ok b := hb
  unfold handle_client
  rw [send_text _ "HELLO\n" (by decide)]
  simp only [hbuf, hg1, hp1, hb1]
  by_cases h1 : v.map tolower = bytes "get"
  · have hg0 : g = 0 := hgiff.mpr h1
    rw [if_pos h1]
    simp [hg0, greeted]
  · have hg0 : g ≠ 0 := fun e => h1 (hgiff.mp e)
    rw [if_neg h1]
    by_cases h2 : v.map tolower = bytes "put"
    · have hp0 : p = 0 := hpiff.mpr h2
      rw [if_pos h2]
      simp [hg0, hp0, greeted]
    · have hp0 : p ≠ 0 := fun e => h2 (hpiff.mp e)
      rw [if_neg h2]
      by_cases h3 : v.map tolower = bytes "bye"
      · have hb0 : b = 0 := hbiff.mpr h3
        rw [if_pos h3]
        simp [hg0, hp0, hb0, greeted]
      · have hb0 : b ≠ 0 := fun e => h3 (hbiff.mp e)
        rw [if_neg h3]
        simp [hg0, hp0, hb0, send_text _ "SERVER 502 Command Error\n" (by decide)]

/-! ## The verb of a request -/

theorem takeWhile_word (pre rest : List Nat) (c : Nat)
    (hpre : ∀ x ∈ pre, x ≠ 32 ∧ x ≠ 10) (hc : c = 32 ∨ c = 10) :
    (pre ++ c :: rest).takeWhile (fun b => b ≠ 32 ∧ b ≠ 10) = pre := by
  induction pre with
  | nil => rcases hc with e | e <;> simp [e]
  | cons x pre ih =>
    have hx := hpre x (List.mem_cons_self _ _)
    have h := ih (fun y hy => hpre y (List.mem_cons_of_mem _ hy))
    rw [List.cons_append, List.takeWhile_cons, h]
    simp [hx.1, hx.2]

/-- For a received request that holds a space or a newline and whose first
word, lower-cased, is `t`: when the byte of `input_first_word` behind the
copied word is NUL, `do_strings_match` returns 0 for the target `t2` exactly
when `t2` is `t`. -/
theorem verb_compare (scratch stale request t t2 : List Nat)
    (hn : request.length ≤ BUFFER_LEN) (hsep : 32 ∈ request ∨ 10 ∈ request)
    (hword : spec_verb request = t) (h0 : 0 ∉ t)
    (hterm : scratch[t.length]? = some 0) (h02 : 0 ∉ t2) :
    ∃ k : Int, do_strings_match scratch (request_buffer stale request) (t2 ++ [0]) = .ok k
      ∧ (k = 0 ↔ t = t2) := by
  have hex : ∃ x ∈ request, x = 32 ∨ x = 10 := by
    rcases hsep with h | h
    · exact ⟨32, h, Or.inl rfl⟩
    · exact ⟨10, h, Or.inr rfl⟩
  obtain ⟨pre, c, rest, e, hpre, hc⟩ := exists_first (fun x => x = 32 ∨ x = 10) request hex
  have hpre1 : ∀ x ∈ pre, x ≠ 32 ∧ x ≠ 10 := fun x hx => not_or.mp (hpre x hx)
  have hv : pre.map tolower = t := by
    rw [← hword, spec_verb, e, takeWhile_word pre rest c hpre1 hc]
  have hlen : pre.length = t.length := by rw [← hv, List.length_map]
  have hpre0 : 0 ∉ pre := by
    intro hmem
    apply h0
    rw [← hv]
    exact List.mem_map.mpr ⟨0, hmem, by decide⟩
  have hbuf : request_buffer stale request = pre ++ c :: (rest ++ stale.drop request.length) := by
    rw [request_buffer_eq stale request hn, e]; simp
  obtain ⟨k, hk, hiff⟩ := do_strings_match_terminated scratch pre
    (rest ++ stale.drop request.length) c t2 hpre1 hpre0 hc (by rw [hlen]; exact hterm) h02
  exact ⟨k, by rw [hbuf]; exact hk, by rw [hiff, hv]⟩

/-- A request whose first word is `get` in any letter case is handed to
`get_file`, when the byte of `input_first_word` behind the three copied letters
is NUL. -/
theorem handle_get_verb (fs : FileStore) (scratch stale mode_tail request : List Nat)
    (incoming : List (List Nat))
    (hn : request.length ≤ BUFFER_LEN) (hsep : 32 ∈ request ∨ 10 ∈ request)
    (hverb : spec_verb request = bytes "get") (hterm : scratch[3]? = some 0) :
    handle_client fs scratch stale mode_tail request incoming
      = get_file (greeted fs) mode_tail (request_buffer stale request) := by
  obtain ⟨k, hk, hiff⟩ := verb_compare scratch stale request (bytes "get") (bytes "get")
    hn hsep hverb (by decide) hterm (by decide)
  have hk0 : k = 0 := hiff.mpr rfl
  subst hk0
  exact handle_get fs scratch stale mode_tail request incoming hk

/-- A request whose first word is `put` in any letter case is handed to
`put_file`, when the byte of `input_first_word` behind the three copied letters
is NUL. -/
theorem handle_put_verb (fs : FileStore) (scratch stale mode_tail request : List Nat)
    (incoming : List (List Nat))
    (hn : request.length ≤ BUFFER_LEN) (hsep : 32 ∈ request ∨ 10 ∈ request)
    (hverb : spec_verb request = bytes "put") (hterm : scratch[3]? = some 0) :
    handle_client fs scratch stale mode_tail request incoming
      = put_file (greeted fs) mode_tail (request_buffer stale request) incoming := by
  obtain ⟨k, hk, hiff⟩ := verb_compare scratch stale request (bytes "put") (bytes "put")
    hn hsep hverb (by decide) hterm (by decide)
  have hk0 : k = 0 := hiff.mpr rfl
  subst hk0
  exact handle_put fs scratch stale mode_tail request incoming hk

/-! ## The claims about GET -/

/-- C1, as amended. For every received request of at most 100 bytes that holds
a space or a newline and whose first word, lower-cased, is `get`, and whose
buffer holds behind its first space (no NUL byte before it) a name `name` that
ends at a newline or NUL byte and names a readable file with contents `C`
without NUL byte (any length): when the byte of `input_first_word` behind the
copied word and the byte behind `open_mode` are NUL, the bytes sent after the
`HELLO` greeting, all sends concatenated, are `SERVER 200 OK\n\n`, then `C`,
then `\n\n\n`. -/
theorem get_success_exact (fs : FileStore) (scratch stale mode_tail request : List Nat)
    (incoming : List (List Nat)) (pre name rest contents : List Nat) (z : Nat)
    (hn : request.length ≤ BUFFER_LEN) (hsep : 32 ∈ request ∨ 10 ∈ request)
    (hverb : spec_verb request = bytes "get") (hterm : scratch[3]? = some 0)
    (hbuf : request_buffer stale request = pre ++ 32 :: (name ++ z :: rest))
    (hpre : 32 ∉ pre ∧ 0 ∉ pre) (hname : 10 ∉ name ∧ 0 ∉ name) (hz : z = 10 ∨ z = 0)
    (hmode : mode_tail.head? = some 0)
    (hread : fs.read name = some contents) (h0 : 0 ∉ contents) :
    ∃ (w : World) (sends : List (List Nat)),
      handle_client fs scratch stale mode_tail request incoming = .ok w
        ∧ w.sent = bytes "HELLO\n" :: sends
        ∧ sends.flatten = bytes "SERVER 200 OK\n\n" ++ contents ++ bytes "\n\n\n" := by
  have hparse := parse_filename_found pre name rest z hpre hname hz
  rw [← hbuf] at hparse
  obtain ⟨chunks, hrun, hjoin⟩ := get_file_found (greeted fs) mode_tail
    (request_buffer stale request) name _ contents hparse hmode hread h0
  rw [handle_get_verb fs scratch stale mode_tail request incoming hn hsep hverb hterm, hrun]
  refine ⟨_, [bytes "SERVER 200 OK\n\n"] ++ chunks ++ [bytes "\n\n\n"], rfl, ?_, ?_⟩
  · simp [greeted]
  · simp [hjoin]

/-- Witness for `get_success_exact`: `GET f\n` for a file holding `hi\n`. -/
theorem get_success_exact_witness :
    ∃ (w : World) (sends : List (List Nat)),
      handle_client (fsOne (bytes "hi\n")) (zeros 100) (zeros 100) (zeros 8)
          (bytes "GET f\n") [] = .ok w
        ∧ w.sent = bytes "HELLO\n" :: sends
        ∧ sends.flatten = bytes "SERVER 200 OK\n\n" ++ bytes "hi\n" ++ bytes "\n\n\n" :=
  get_success_exact (fsOne (bytes "hi\n")) (zeros 100) (zeros 100) (zeros 8)
    (bytes "GET f\n") [] (bytes "GET") (bytes "f") (zeros 94) (bytes "hi\n") 10
    (by decide) (by decide) (by decide) (by decide) (by decide) (by decide) (by decide)
    (by decide) (by decide) (by decide) (by decide)

/-- C1, counterexample. The file `f` holds the three bytes `A`, NUL, `B`; the
request `GET f\n`, with NUL bytes behind the copied word and behind
`open_mode`, is answered with `SERVER 200 OK\n\n`, `A`, `\n\n\n`: the bytes NUL
and `B` of the file are not sent. -/
theorem get_nul_counterexample :
    spec_verb (bytes "GET f\n") = bytes "get"
      ∧ do_strings_match (zeros 100) (request_buffer (zeros 100) (bytes "GET f\n")) (lit "get")
        = .ok 0
      ∧ parse_filename (request_buffer (zeros 100) (bytes "GET f\n"))
        = .ok (some (bytes "f", bytes "GET f" ++ zeros 95))
      ∧ (fsOne [65, 0, 66]).read (bytes "f") = some [65, 0, 66]
      ∧ sentOf (handle_client (fsOne [65, 0, 66]) (zeros 100) (zeros 100) (zeros 8)
          (bytes "GET f\n") [])
        = some [bytes "HELLO\n", bytes "SERVER 200 OK\n\n", [65], bytes "\n\n\n"]
      ∧ List.flatten [bytes "SERVER 200 OK\n\n", [65], bytes "\n\n\n"]
        ≠ bytes "SERVER 200 OK\n\n" ++ [65, 0, 66] ++ bytes "\n\n\n" := by
  decide

/-- C5, as amended. For every received request of at most 100 bytes that holds
a space or a newline and whose first word, lower-cased, is `get`, and whose
buffer holds no space character anywhere before its first NUL byte (not only in
the request line): when the byte of `input_first_word` behind the copied word
is NUL, the response after the greeting is exactly `SERVER 500 Get Error\n` and
no file is opened. -/
theorem get_without_filename (fs : FileStore) (scratch stale mode_tail request : List Nat)
    (incoming : List (List Nat)) (pre rest : List Nat)
    (hn : request.length ≤ BUFFER_LEN) (hsep : 32 ∈ request ∨ 10 ∈ request)
    (hverb : spec_verb request = bytes "get") (hterm : scratch[3]? = some 0)
    (hbuf : request_buffer stale request = pre ++ 0 :: rest) (hpre : 32 ∉ pre) :
    handle_client fs scratch stale mode_tail request incoming
      = .ok { sent := [bytes "HELLO\n", bytes "SERVER 500 Get Error\n"]
              files := fs, opens := [], recvs := 0 } := by
  rw [handle_get_verb fs scratch stale mode_tail request incoming hn hsep hverb hterm,
    get_file_no_name _ _ _ (by rw [hbuf]; exact parse_filename_absent pre rest hpre)]
  simp [greeted]

/-- Witness for `get_without_filename`: the request `GET\n`, with stray bytes
behind `open_mode`. -/
theorem get_without_filename_witness :
    handle_client (fsOne []) (zeros 100) (zeros 100) (bytes "+x") (bytes "GET\n") []
      = .ok { sent := [bytes "HELLO\n", bytes "SERVER 500 Get Error\n"]
              files := fsOne [], opens := [], recvs := 0 } :=
  get_without_filename (fsOne []) (zeros 100) (zeros 100) (bytes "+x") (bytes "GET\n") []
    (bytes "GET\n") (zeros 95) (by decide) (by decide) (by decide) (by decide) (by decide)
    (by decide)

/-- C5, counterexample. The request `GET\na b\n` has the verb `get` and a
request line `GET` without a space, yet `open_file` finds the space of the
second line, tries to open the file `b` and answers `SERVER 404 Not Found\n`. -/
theorem get_second_line_counterexample :
    spec_verb (bytes "GET\na b\n") = bytes "get"
      ∧ do_strings_match (zeros 100) (request_buffer (zeros 100) (bytes "GET\na b\n"))
          (lit "get") = .ok 0
      ∧ 32 ∉ (bytes "GET\na b\n").takeWhile (fun b => b ≠ 10)
      ∧ sentOf (handle_client fsNone (zeros 100) (zeros 100) (zeros 8) (bytes "GET\na b\n") [])
        = some [bytes "HELLO\n", bytes "SERVER 404 Not Found\n"]
      ∧ opensOf (handle_client fsNone (zeros 100) (zeros 100) (zeros 8) (bytes "GET\na b\n") [])
        = some [(bytes "b", 114)] := by
  decide

/-- A GET of a file that cannot be opened for reading, for a request whose
first word, lower-cased, is `get` and whose buffer holds a name behind its
first space, when the byte of `input_first_word` behind the copied word is NUL:
the response after the greeting is exactly `SERVER 404 Not Found\n`, whatever
bytes lie behind `open_mode`. -/
theorem get_missing_file_terminated (fs : FileStore)
    (scratch stale mode_tail request : List Nat)
    (incoming : List (List Nat)) (pre name rest : List Nat) (z : Nat)
    (hn : request.length ≤ BUFFER_LEN) (hsep : 32 ∈ request ∨ 10 ∈ request)
    (hverb : spec_verb request = bytes "get") (hterm : scratch[3]? = some 0)
    (hbuf : request_buffer stale request = pre ++ 32 :: (name ++ z :: rest))
    (hpre : 32 ∉ pre ∧ 0 ∉ pre) (hname : 10 ∉ name ∧ 0 ∉ name) (hz : z = 10 ∨ z = 0)
    (hmiss : fs.read name = none) :
    handle_client fs scratch stale mode_tail request incoming
      = .ok { sent := [bytes "HELLO\n", bytes "SERVER 404 Not Found\n"]
              files := fs, opens := [(name, 114)], recvs := 0 } := by
  have hparse := parse_filename_found pre name rest z hpre hname hz
  rw [← hbuf] at hparse
  rw [handle_get_verb fs scratch stale mode_tail request incoming hn hsep hverb hterm,
    get_file_missing _ _ _ name _ hparse (by simpa [greeted] using hmiss)]
  simp [greeted]

set_option maxRecDepth 8000 in
/-- C6, the code at the failing input. The request `GET g\n` has the verb
`get` and names the file `g`, which does not exist. With the array
`input_first_word` holding the byte `x` everywhere on entry the handler answers
`SERVER 502 Command Error\n` and never tries to open `g`; with the array
holding zero bytes it answers `SERVER 404 Not Found\n`. The request `GET `
followed by 96 bytes `x` fills the buffer: the search for the end of the name
runs past the end of the buffer. -/
theorem get_missing_unterminated_word :
    spec_verb (bytes "GET g\n") = bytes "get"
      ∧ (fsOne [65]).read (bytes "g") = none
      ∧ sentOf (handle_client (fsOne [65]) (List.replicate 100 120) (zeros 100) (zeros 8)
          (bytes "GET g\n") [])
        = some [bytes "HELLO\n", bytes "SERVER 502 Command Error\n"]
      ∧ opensOf (handle_client (fsOne [65]) (List.replicate 100 120) (zeros 100) (zeros 8)
          (bytes "GET g\n") [])
        = some []
      ∧ sentOf (handle_client (fsOne [65]) (zeros 100) (zeros 100) (zeros 8)
          (bytes "GET g\n") [])
        = some [bytes "HELLO\n", bytes "SERVER 404 Not Found\n"]
      ∧ spec_verb (bytes "GET " ++ List.replicate 96 120) = bytes "get"
      ∧ isUndefined (handle_client (fsOne [65]) (zeros 100) (zeros 100) (zeros 8)
          (bytes "GET " ++ List.replicate 96 120) []) = true := by
  decide

/-! ## The claims about PUT -/

/-- A PUT that fails, for a request whose first word, lower-cased, is `put`,
when the byte of `input_first_word` behind the copied word is NUL: if the
target cannot be opened for writing, or the buffer holds no space before its
first NUL byte, the response after the greeting is exactly
`SERVER 501 Put Error\n`, no body chunk is received and the file store is
unchanged, whatever bytes lie behind `open_mode`. -/
theorem put_failure_terminated (fs : FileStore) (scratch stale mode_tail request : List Nat)
    (incoming : List (List Nat))
    (hn : request.length ≤ BUFFER_LEN) (hsep : 32 ∈ request ∨ 10 ∈ request)
    (hverb : spec_verb request = bytes "put") (hterm : scratch[3]? = some 0)
    (hfail : (∃ pre name rest z,
          request_buffer stale request = pre ++ 32 :: (name ++ z :: rest)
            ∧ (32 ∉ pre ∧ 0 ∉ pre) ∧ (10 ∉ name ∧ 0 ∉ name) ∧ (z = 10 ∨ z = 0)
            ∧ fs.writable name = false)
        ∨ (∃ pre rest, request_buffer stale request = pre ++ 0 :: rest ∧ 32 ∉ pre)) :
    ∃ w : World,
      handle_client fs scratch stale mode_tail request incoming = .ok w
        ∧ w.sent = [bytes "HELLO\n", bytes "SERVER 501 Put Error\n"]
        ∧ w.recvs = 0
        ∧ w.files = fs := by
  rw [handle_put_verb fs scratch stale mode_tail request incoming hn hsep hverb hterm]
  rcases hfail with ⟨pre, name, rest, z, hbuf, hpre, hname, hz, hw⟩ | ⟨pre, rest, hbuf, hpre⟩
  · have hparse := parse_filename_found pre name rest z hpre hname hz
    rw [← hbuf] at hparse
    rw [put_file_unwritable _ _ _ name _ incoming hparse (by simpa [greeted] using hw)]
    exact ⟨_, rfl, by simp [greeted], by simp [greeted], by simp [greeted]⟩
  · rw [put_file_no_name _ _ _ incoming
      (by rw [hbuf]; exact parse_filename_absent pre rest hpre)]
    exact ⟨_, rfl, by simp [greeted], by simp [greeted], by simp [greeted]⟩

set_option maxRecDepth 8000 in
/-- C7, the code at the failing input. The request `PUT f\n` has the verb
`put` and a target that cannot be opened for writing. With the array
`input_first_word` holding the byte `x` everywhere on entry the handler answers
`SERVER 502 Command Error\n`; with the array holding zero bytes it answers
`SERVER 501 Put Error\n` and receives no body chunk. The request `PUT\n`
followed by 96 bytes `x` holds no space and fills the buffer: the search for a
space runs past the end of the buffer. -/
theorem put_failure_unterminated_word :
    spec_verb (bytes "PUT f\n") = bytes "put"
      ∧ fsNone.writable (bytes "f") = false
      ∧ sentOf (handle_client fsNone (List.replicate 100 120) (zeros 100) (zeros 8)
          (bytes "PUT f\n") [bytes "data\n", [10], [10]])
        = some [bytes "HELLO\n", bytes "SERVER 502 Command Error\n"]
      ∧ sentOf (handle_client fsNone (zeros 100) (zeros 100) (zeros 8)
          (bytes "PUT f\n") [bytes "data\n", [10], [10]])
        = some [bytes "HELLO\n", bytes "SERVER 501 Put Error\n"]
      ∧ recvsOf (handle_client fsNone (zeros 100) (zeros 100) (zeros 8)
          (bytes "PUT f\n") [bytes "data\n", [10], [10]])
        = some 0
      ∧ spec_verb (bytes "PUT\n" ++ List.replicate 96 120) = bytes "put"
      ∧ 32 ∉ bytes "PUT\n" ++ List.replicate 96 120
      ∧ isUndefined (handle_client fsNone (zeros 100) (zeros 100) (zeros 8)
          (bytes "PUT\n" ++ List.replicate 96 120) [bytes "data\n", [10], [10]]) = true := by
  decide

/-- C2, as amended. For every received request of at most 100 bytes that holds
a space or a newline and whose first word, lower-cased, is `put`, whose buffer
holds behind its first space (no NUL byte before it) a name that ends at a
newline or NUL byte and can be opened for writing, and for every body `B` of
chunks of 1 to 100 bytes that holds no two consecutive empty-line chunks: when
the byte of `input_first_word` behind the copied word and the byte behind
`open_mode` are NUL, the chunks of `B` followed by two empty-line chunks `t1`,
`t2` leave in the target file the concatenation of `B` followed by `t1` (of `B`
alone when `B` itself ends with an empty-line chunk), and the client receives
exactly `SERVER 201 Created\n` after the greeting. -/
theorem put_stores_body (fs : FileStore) (scratch stale mode_tail request : List Nat)
    (pre name rest : List Nat) (z : Nat)
    (B : List (List Nat)) (t1 t2 : List Nat) (extra : List (List Nat))
    (hn : request.length ≤ BUFFER_LEN) (hsep : 32 ∈ request ∨ 10 ∈ request)
    (hverb : spec_verb request = bytes "put") (hterm : scratch[3]? = some 0)
    (hbuf : request_buffer stale request = pre ++ 32 :: (name ++ z :: rest))
    (hpre : 32 ∉ pre ∧ 0 ∉ pre) (hname : 10 ∉ name ∧ 0 ∉ name) (hz : z = 10 ∨ z = 0)
    (hmode : mode_tail.head? = some 0)
    (hopen : fs.writable name = true)
    (hsize : ∀ c ∈ B, 1 ≤ c.length ∧ c.length ≤ BUFFER_LEN)
    (hchain : List.Chain' (fun a b => ¬ (isEmptyLine a ∧ isEmptyLine b)) B)
    (ht1 : isEmptyLine t1) (ht2 : isEmptyLine t2) :
    ∃ w : World,
      handle_client fs scratch stale mode_tail request (B ++ t1 :: t2 :: extra) = .ok w
        ∧ w.sent = [bytes "HELLO\n", bytes "SERVER 201 Created\n"]
        ∧ w.files.read name
            = some (B.flatten ++ if endsWithEmptyLine B then [] else t1) := by
  have hparse := parse_filename_found pre name rest z hpre hname hz
  rw [← hbuf] at hparse
  obtain ⟨w, hrun, hsent, hfile, _, _, _⟩ := put_file_stored (greeted fs) mode_tail
    (request_buffer stale request) name _ B t1 t2 extra hparse hmode
    (by simpa [greeted] using hopen) hsize hchain ht1 ht2
  rw [handle_put_verb fs scratch stale mode_tail request _ hn hsep hverb hterm]
  exact ⟨w, hrun, by simpa [greeted] using hsent, hfile⟩

/-- Witness for `put_stores_body`: `PUT f\n`, the body `hello\n`, two newline
chunks. -/
theorem put_stores_body_witness :
    ∃ w : World,
      handle_client (fsOne []) (zeros 100) (zeros 100) (zeros 8) (bytes "PUT f\n")
          ([bytes "hello\n"] ++ [10] :: [10] :: []) = .ok w
        ∧ w.sent = [bytes "HELLO\n", bytes "SERVER 201 Created\n"]
        ∧ w.files.read (bytes "f")
            = some ([bytes "hello\n"].flatten
                ++ if endsWithEmptyLine [bytes "hello\n"] then [] else [10]) :=
  put_stores_body (fsOne []) (zeros 100) (zeros 100) (zeros 8) (bytes "PUT f\n")
    (bytes "PUT") (bytes "f") (zeros 94) 10 [bytes "hello\n"] [10] [10] []
    (by decide) (by decide) (by decide) (by decide) (by decide) (by decide) (by decide)
    (by decide) (by decide) (by decide) (by decide) (List.chain'_singleton _) (by decide)
    (by decide)

/-- C2, counterexample. After `PUT f\n`, the body chunk `a` and the terminator
(two chunks `\n`), with NUL bytes behind the copied word and behind
`open_mode`, the client has received `SERVER 201 Created\n` and the file holds
`a\n`: the first terminator chunk was written to it. -/
theorem put_terminator_counterexample :
    spec_verb (bytes "PUT f\n") = bytes "put"
      ∧ do_strings_match (zeros 100) (request_buffer (zeros 100) (bytes "PUT f\n")) (lit "put")
        = .ok 0
      ∧ List.Chain' (fun a b => ¬ (isEmptyLine a ∧ isEmptyLine b)) [bytes "a"]
      ∧ isEmptyLine [10]
      ∧ sentOf (handle_client (fsOne []) (zeros 100) (zeros 100) (zeros 8) (bytes "PUT f\n")
          [bytes "a", [10], [10]])
        = some [bytes "HELLO\n", bytes "SERVER 201 Created\n"]
      ∧ fileOf (handle_client (fsOne []) (zeros 100) (zeros 100) (zeros 8) (bytes "PUT f\n")
          [bytes "a", [10], [10]]) (bytes "f")
        = some (bytes "a\n")
      ∧ bytes "a\n" ≠ List.flatten [bytes "a"] :=
  ⟨by decide, by decide, List.chain'_singleton _, by decide, by decide, by decide, by decide⟩

/-- C3, as amended. A PUT request (at most 100 bytes, a space or newline in
it, first word lower-cased `put`, a name behind the first space of its buffer
that can be opened for writing) with a body `B` of chunks of 1 to 100 bytes (no
two consecutive empty-line chunks) and the terminator `t1`, `t2`, followed on a
fresh connection to the store the PUT left by a GET request for the same name
(at most 100 bytes, a space or newline in it, first word lower-cased `get`):
when on both connections the byte of `input_first_word` behind the copied word
and the byte behind `open_mode` are NUL, and the stored bytes hold no NUL byte,
the GET returns `SERVER 200 OK\n\n`, then the bytes the PUT stored (`B`
followed by `t1`, or `B` alone when `B` ends with an empty-line chunk), then
`\n\n\n`. -/
theorem put_then_get (fs : FileStore) (scratch stale mode_tail request : List Nat)
    (pre name rest : List Nat) (z : Nat)
    (B : List (List Nat)) (t1 t2 : List Nat) (extra : List (List Nat))
    (scratch2 stale2 mode_tail2 request2 pre2 rest2 : List Nat) (z2 : Nat)
    (incoming2 : List (List Nat))
    (hn : request.length ≤ BUFFER_LEN) (hsep : 32 ∈ request ∨ 10 ∈ request)
    (hverb : spec_verb request = bytes "put") (hterm : scratch[3]? = some 0)
    (hbuf : request_buffer stale request = pre ++ 32 :: (name ++ z :: rest))
    (hpre : 32 ∉ pre ∧ 0 ∉ pre) (hname : 10 ∉ name ∧ 0 ∉ name) (hz : z = 10 ∨ z = 0)
    (hmode : mode_tail.head? = some 0)
    (hopen : fs.writable name = true)
    (hsize : ∀ c ∈ B, 1 ≤ c.length ∧ c.length ≤ BUFFER_LEN)
    (hchain : List.Chain' (fun a b => ¬ (isEmptyLine a ∧ isEmptyLine b)) B)
    (ht1 : isEmptyLine t1) (ht2 : isEmptyLine t2)
    (hn2 : request2.length ≤ BUFFER_LEN) (hsep2 : 32 ∈ request2 ∨ 10 ∈ request2)
    (hverb2 : spec_verb request2 = bytes "get") (hterm2 : scratch2[3]? = some 0)
    (hbuf2 : request_buffer stale2 request2 = pre2 ++ 32 :: (name ++ z2 :: rest2))
    (hpre2 : 32 ∉ pre2 ∧ 0 ∉ pre2) (hz2 : z2 = 10 ∨ z2 = 0)
    (hmode2 : mode_tail2.head? = some 0)
    (h0 : 0 ∉ B.flatten ++ if endsWithEmptyLine B then [] else t1) :
    ∃ (w1 w2 : World) (sends : List (List Nat)),
      handle_client fs scratch stale mode_tail request (B ++ t1 :: t2 :: extra) = .ok w1
        ∧ handle_client w1.files scratch2 stale2 mode_tail2 request2 incoming2 = .ok w2
        ∧ w2.sent = bytes "HELLO\n" :: sends
        ∧ sends.flatten = bytes "SERVER 200 OK\n\n"
            ++ (B.flatten ++ if endsWithEmptyLine B then [] else t1) ++ bytes "\n\n\n" := by
  have hparse := parse_filename_found pre name rest z hpre hname hz
  rw [← hbuf] at hparse
  have hparse2 := parse_filename_found pre2 name rest2 z2 hpre2 hname hz2
  rw [← hbuf2] at hparse2
  obtain ⟨w1, hrun, _, hfile, _, _, _⟩ := put_file_stored (greeted fs) mode_tail
    (request_buffer stale request) name _ B t1 t2 extra hparse hmode
    (by simpa [greeted] using hopen) hsize hchain ht1 ht2
  obtain ⟨chunks, hrun2, hjoin⟩ := get_file_found (greeted w1.files) mode_tail2
    (request_buffer stale2 request2) name _ _ hparse2 hmode2
    (by simpa [greeted] using hfile) h0
  obtain ⟨w2, hw2, hsent2⟩ : ∃ w2 : World,
      get_file (greeted w1.files) mode_tail2 (request_buffer stale2 request2) = .ok w2
        ∧ w2.sent = bytes "HELLO\n" ::
            ([bytes "SERVER 200 OK\n\n"] ++ chunks ++ [bytes "\n\n\n"]) :=
    ⟨_, hrun2, by simp [greeted]⟩
  refine ⟨w1, w2, [bytes "SERVER 200 OK\n\n"] ++ chunks ++ [bytes "\n\n\n"], ?_, ?_,
    hsent2, ?_⟩
  · rw [handle_put_verb fs scratch stale mode_tail request _ hn hsep hverb hterm]
    exact hrun
  · rw [handle_get_verb w1.files scratch2 stale2 mode_tail2 request2 incoming2 hn2 hsep2
      hverb2 hterm2]
    exact hw2
  · simp [hjoin]

/-- Witness for `put_then_get`: `PUT f\n` with the body `hello\n`, then `GET f\n`. -/
theorem put_then_get_witness :
    ∃ (w1 w2 : World) (sends : List (List Nat)),
      handle_client (fsOne []) (zeros 100) (zeros 100) (zeros 8) (bytes "PUT f\n")
          ([bytes "hello\n"] ++ [10] :: [10] :: []) = .ok w1
        ∧ handle_client w1.files (zeros 100) (zeros 100) (zeros 8) (bytes "GET f\n") []
          = .ok w2
        ∧ w2.sent = bytes "HELLO\n" :: sends
        ∧ sends.flatten = bytes "SERVER 200 OK\n\n"
            ++ ([bytes "hello\n"].flatten
                ++ if endsWithEmptyLine [bytes "hello\n"] then [] else [10])
            ++ bytes "\n\n\n" :=
  put_then_get (fsOne []) (zeros 100) (zeros 100) (zeros 8) (bytes "PUT f\n")
    (bytes "PUT") (bytes "f") (zeros 94) 10 [bytes "hello\n"] [10] [10] []
    (zeros 100) (zeros 100) (zeros 8) (bytes "GET f\n") (bytes "GET") (zeros 94) 10 []
    (by decide) (by decide) (by decide) (by decide) (by decide) (by decide) (by decide)
    (by decide) (by decide) (by decide) (by decide) (List.chain'_singleton _) (by decide)
    (by decide) (by decide) (by decide) (by decide) (by decide) (by decide) (by decide)
    (by decide) (by decide) (by decide)

/-- C3, counterexample. `PUT f\n` with the body chunk `a` and the terminator
(two chunks `\n`), then `GET f\n` on a fresh connection to the store the PUT
left, each with NUL bytes behind the copied word and behind `open_mode`: the
GET returns `SERVER 200 OK\n\n`, `a\n`, `\n\n\n`, one byte more than the body
`a`. With the body chunk `a`, NUL, `b` the file holds `a`, NUL, `b`, `\n` and the
GET returns `SERVER 200 OK\n\n`, `a`, `\n\n\n`. -/
theorem put_get_round_trip_counterexample :
    (match handle_client (fsOne []) (zeros 100) (zeros 100) (zeros 8) (bytes "PUT f\n")
        [bytes "a", [10], [10]] with
      | .ok w1 =>
        sentOf (handle_client w1.files (zeros 100) (zeros 100) (zeros 8) (bytes "GET f\n") [])
      | _ => none)
      = some [bytes "HELLO\n", bytes "SERVER 200 OK\n\n", bytes "a\n", bytes "\n\n\n"]
    ∧ List.flatten [bytes "SERVER 200 OK\n\n", bytes "a\n", bytes "\n\n\n"]
      ≠ bytes "SERVER 200 OK\n\n" ++ List.flatten [bytes "a"] ++ bytes "\n\n\n"
    ∧ fileOf (handle_client (fsOne []) (zeros 100) (zeros 100) (zeros 8) (bytes "PUT f\n")
        [[97, 0, 98], [10], [10]]) (bytes "f") = some [97, 0, 98, 10]
    ∧ (match handle_client (fsOne []) (zeros 100) (zeros 100) (zeros 8) (bytes "PUT f\n")
        [[97, 0, 98], [10], [10]] with
      | .ok w1 =>
        sentOf (handle_client w1.files (zeros 100) (zeros 100) (zeros 8) (bytes "GET f\n") [])
      | _ => none)
      = some [bytes "HELLO\n", bytes "SERVER 200 OK\n\n", [97], bytes "\n\n\n"] := by
  decide

/-! ## The claim about the file name -/

/-- C8, as amended. When the buffer holds a space before the end of its
string, the file name `open_file` passes to `fopen` is the stretch of bytes
after the first space up to the first newline or NUL byte that follows it,
taken verbatim; the bytes after that newline are dropped. When the string in
the buffer ends without a space, `open_file` returns NULL and attempts no
`fopen`. Both hold whatever bytes lie behind `open_mode`. -/
theorem filename_extraction (pre name rest : List Nat) (t : Nat) (w : World) (mode : Nat)
    (mode_tail : List Nat) (msg1 msg2 : String) :
    (32 ∉ pre ∧ 0 ∉ pre → 10 ∉ name ∧ 0 ∉ name → t = 10 ∨ t = 0 → 0 ∉ bytes msg2 →
        ∃ r, open_file w (pre ++ 32 :: (name ++ t :: rest)) mode mode_tail (lit msg1) (lit msg2)
            = .ok r
          ∧ r.2.2.opens = w.opens ++ [(name, mode)])
    ∧ (32 ∉ pre → 0 ∉ bytes msg1 →
        ∃ r, open_file w (pre ++ 0 :: rest) mode mode_tail (lit msg1) (lit msg2) = .ok r
          ∧ r.1 = none ∧ r.2.2.opens = w.opens) := by
  constructor
  · intro hpre hname ht hmsg
    simp only [open_file, parse_filename_found pre name rest t hpre hname ht]
    cases hf : fopen w name mode mode_tail with
    | mk file w1 =>
      have hopens : w1.opens = w.opens ++ [(name, mode)] := by
        unfold fopen at hf
        split at hf
        · split at hf
          · split at hf <;> (cases hf; rfl)
          · split at hf
            · split at hf <;> (cases hf; rfl)
            · cases hf; rfl
        · cases hf; rfl
      cases file with
      | none =>
        simp only [send_text w1 msg2 hmsg]
        exact ⟨_, rfl, hopens⟩
      | some f => exact ⟨_, rfl, hopens⟩
  · intro hpre hmsg
    simp only [open_file, parse_filename_absent pre rest hpre, send_text w msg1 hmsg]
    exact ⟨_, rfl, rfl, rfl⟩

/-- Witness for `filename_extraction`: the buffers `GET My file.TXT\n...` and
`GET\n` followed by zero bytes. -/
theorem filename_extraction_witness :
    (∃ r, open_file (greeted fsNone) (bytes "GET" ++ 32 :: (bytes "My file.TXT" ++ 10 :: zeros 84))
          114 (bytes "+x") (lit "SERVER 500 Get Error\n") (lit "SERVER 404 Not Found\n") = .ok r
        ∧ r.2.2.opens = (greeted fsNone).opens ++ [(bytes "My file.TXT", 114)])
    ∧ (∃ r, open_file (greeted fsNone) (bytes "GET\n" ++ 0 :: zeros 95)
          114 (bytes "+x") (lit "SERVER 500 Get Error\n") (lit "SERVER 404 Not Found\n") = .ok r
        ∧ r.1 = none ∧ r.2.2.opens = (greeted fsNone).opens) :=
  ⟨(filename_extraction (bytes "GET") (bytes "My file.TXT") (zeros 84) 10 (greeted fsNone) 114
      (bytes "+x") "SERVER 500 Get Error\n" "SERVER 404 Not Found\n").1
      (by decide) (by decide) (by decide) (by decide),
   (filename_extraction (bytes "GET\n") [] (zeros 95) 10 (greeted fsNone) 114
      (bytes "+x") "SERVER 500 Get Error\n" "SERVER 404 Not Found\n").2 (by decide) (by decide)⟩

/-- C8, counterexample. For the received request `GET a\nb\n` the bytes after
the first space with the trailing newline stripped are `a\nb`, but the name
`open_file` passes to `fopen` is `a`. -/
theorem filename_newline_counterexample :
    spec_argument (bytes "GET a\nb\n") = some (bytes "a\nb")
      ∧ opensOf (handle_client fsNone (zeros 100) (zeros 100) (zeros 8) (bytes "GET a\nb\n") [])
        = some [(bytes "a", 114)]
      ∧ bytes "a" ≠ bytes "a\nb" := by
  decide

/-! ## The claims about dispatch and about the end of a PUT body -/

/-- C4, the code at the failing input. The request `GET f\n` has the verb
`get`; with the array `input_first_word` holding the byte `x` everywhere on
entry the handler answers `SERVER 502 Command Error\n`, with the array holding
zero bytes it takes the GET path. The request whose first word is `get`, NUL,
`x` takes the GET path as well, where it is answered `SERVER 500 Get Error\n`. -/
theorem dispatch_unterminated_word :
    spec_verb (bytes "GET f\n") = bytes "get"
      ∧ sentOf (handle_client (fsOne (bytes "hi\n")) (List.replicate 100 120) (zeros 100)
          (zeros 8) (bytes "GET f\n") [])
        = some [bytes "HELLO\n", bytes "SERVER 502 Command Error\n"]
      ∧ sentOf (handle_client (fsOne (bytes "hi\n")) (zeros 100) (zeros 100)
          (zeros 8) (bytes "GET f\n") [])
        = some [bytes "HELLO\n", bytes "SERVER 200 OK\n\n", bytes "hi\n", bytes "\n\n\n"]
      ∧ spec_verb ([103, 101, 116, 0, 120] ++ bytes " f\n") ≠ bytes "get"
      ∧ sentOf (handle_client (fsOne (bytes "hi\n")) (List.replicate 100 120) (zeros 100)
          (zeros 8) ([103, 101, 116, 0, 120] ++ bytes " f\n") [])
        = some [bytes "HELLO\n", bytes "SERVER 500 Get Error\n"] := by
  decide

/-- C9, the code at the failing input. After `PUT f\n`, one chunk `\n` followed
by a receive of 0 bytes ends the loop at the second receive, and the chunk
`\nabc` followed by two receives of 0 bytes ends it at the third, although a
chunk of 0 bytes is no empty-line chunk and `\nabc` is none either. -/
theorem put_loop_zero_byte_receive :
    ¬ isEmptyLine [] ∧ ¬ isEmptyLine (bytes "\nabc")
      ∧ sentOf (handle_client (fsOne []) (zeros 100) (zeros 100) (zeros 8) (bytes "PUT f\n")
          [[10], []])
        = some [bytes "HELLO\n", bytes "SERVER 201 Created\n"]
      ∧ recvsOf (handle_client (fsOne []) (zeros 100) (zeros 100) (zeros 8) (bytes "PUT f\n")
          [[10], []])
        = some 2
      ∧ sentOf (handle_client (fsOne []) (zeros 100) (zeros 100) (zeros 8) (bytes "PUT f\n")
          [bytes "\nabc", [], []])
        = some [bytes "HELLO\n", bytes "SERVER 201 Created\n"]
      ∧ recvsOf (handle_client (fsOne []) (zeros 100) (zeros 100) (zeros 8) (bytes "PUT f\n")
          [bytes "\nabc", [], []])
        = some 3 := by
  decide

end FileServer
